import Mathlib

/-!
Verification development for the pytest-mcp test-harness engine.

The Python sources are shallowly embedded in Lean:
* `Json`, `serialize`, `loads` model the JSON layer used by
  `src/pytest_mcp/snapshot.py` (`json.dumps(value, indent=2, sort_keys=True)`
  and `json.loads`);
* `SnapshotHelper` and its operations model `snapshot.py`;
* `ClientState` / `connect` / `disconnect` model `client.py`;
* `ServerState` / `start` / `stop` / `get_client` / `wait_for_ready` and the
  factory model `server.py`;
* `assert_tool_returns_error` models `assertions.py`.

Python exceptions are modelled with `Except`; the file system backing the
snapshot store is modelled as an association list from paths to contents.
-/

/-- Python `str` single-quote character, used to build diagnostic messages
without writing a quote character in a string literal. -/
def pyQuote : String := String.mk [Char.ofNat 39]

/-- JSON values, the payloads `SnapshotHelper` serializes.  Numbers are
restricted to integers (the snapshot claims do not involve floats). -/
inductive Json where
  | null
  | bool (b : Bool)
  | num (n : Int)
  | str (s : String)
  | arr (items : List Json)
  | obj (fields : List (String × Json))

/-- Code-point lexicographic `≤` on character lists; models Python string
comparison (used by `sort_keys=True` and `sorted`). -/
def charsLe : List Char → List Char → Bool
  | [], _ => true
  | _ :: _, [] => false
  | a :: as, b :: bs =>
    if a.toNat < b.toNat then true
    else if b.toNat < a.toNat then false
    else charsLe as bs

/-- Does the first list start with the second? Helper for Python `in`. -/
def startsWithChars : List Char → List Char → Bool
  | _, [] => true
  | [], _ :: _ => false
  | a :: as, b :: bs => a == b && startsWithChars as bs

/-- Does the first list contain the second as a contiguous run?  Models the
Python `needle in haystack` substring test. -/
def containsChars : List Char → List Char → Bool
  | [], needle => startsWithChars [] needle
  | c :: cs, needle => startsWithChars (c :: cs) needle || containsChars cs needle

/-- Python `needle in haystack` on strings. -/
def containsStr (haystack needle : String) : Bool :=
  containsChars haystack.data needle.data

/-- The decimal digit character for `d < 10`. -/
def digitChar : Nat → Char
  | 0 => '0' | 1 => '1' | 2 => '2' | 3 => '3' | 4 => '4'
  | 5 => '5' | 6 => '6' | 7 => '7' | 8 => '8' | _ => '9'

/-- The lowercase hexadecimal digit character for `d < 16` (Python renders
`\uXXXX` escapes with lowercase hex). -/
def hexDigit : Nat → Char
  | 0 => '0' | 1 => '1' | 2 => '2' | 3 => '3' | 4 => '4'
  | 5 => '5' | 6 => '6' | 7 => '7' | 8 => '8' | 9 => '9'
  | 10 => 'a' | 11 => 'b' | 12 => 'c' | 13 => 'd' | 14 => 'e' | _ => 'f'

/-- Four lowercase hex digits of `n < 0x10000`, as in a `\uXXXX` escape. -/
def hex4 (n : Nat) : List Char :=
  [hexDigit (n / 4096), hexDigit (n / 256 % 16), hexDigit (n / 16 % 16), hexDigit (n % 16)]

/-- Decimal digits of a natural number, most significant first, fuelled so the
definition reduces in the kernel.  `natChars` supplies sufficient fuel. -/
def natCharsAux : Nat → Nat → List Char → List Char
  | 0, _, acc => acc
  | fuel + 1, n, acc =>
    if n < 10 then digitChar n :: acc
    else natCharsAux fuel (n / 10) (digitChar (n % 10) :: acc)

/-- Decimal rendering of a natural number, e.g. `natChars 42 = ['4','2']`. -/
def natChars (n : Nat) : List Char := natCharsAux (n + 1) n []

/-- Python `str(int)`: decimal digits, with a leading minus sign when
negative. -/
def intChars (n : Int) : List Char :=
  if n < 0 then '-' :: natChars n.natAbs else natChars n.natAbs

/-- The escape sequence `json.dumps` (with its default `ensure_ascii=True`)
emits for one character: the two-character escapes for quote, backslash and
the named control characters; `\uXXXX` for other characters outside
`0x20`–`0x7E` (as a surrogate pair above `0xFFFF`); the character itself
otherwise. -/
def escapeChar (c : Char) : List Char :=
  if c = '"' then ['\\', '"']
  else if c = '\\' then ['\\', '\\']
  else if c = '\n' then ['\\', 'n']
  else if c = '\t' then ['\\', 't']
  else if c = '\r' then ['\\', 'r']
  else if c.toNat = 8 then ['\\', 'b']
  else if c.toNat = 12 then ['\\', 'f']
  else if c.toNat < 32 ∨ 126 < c.toNat then
    if c.toNat < 65536 then '\\' :: 'u' :: hex4 c.toNat
    else
      ('\\' :: 'u' :: hex4 (55296 + (c.toNat - 65536) / 1024)) ++
      ('\\' :: 'u' :: hex4 (56320 + (c.toNat - 65536) % 1024))
  else [c]

/-- JSON-escape every character of a list. -/
def escList : List Char → List Char
  | [] => []
  | c :: cs => escapeChar c ++ escList cs

/-- `n` space characters (indentation). -/
def spaces (n : Nat) : List Char := List.replicate n ' '

/-- A quoted, escaped JSON string literal. -/
def renderStr (s : String) : List Char := '"' :: (escList s.data ++ ['"'])

/-- A rendered object key followed by the `": "` key separator that
`json.dumps` uses when `indent` is given. -/
def renderKey (k : String) : List Char := renderStr k ++ [':', ' ']

mutual
/-- Pretty-printing of one JSON value at indentation level `ind`, exactly as
`json.dumps(value, indent=2)` lays it out (key order is handled separately by
`canonSort`). -/
def renderVal : Json → Nat → List Char
  | .null, _ => ['n', 'u', 'l', 'l']
  | .bool true, _ => ['t', 'r', 'u', 'e']
  | .bool false, _ => ['f', 'a', 'l', 's', 'e']
  | .num n, _ => intChars n
  | .str s, _ => renderStr s
  | .arr [], _ => ['[', ']']
  | .arr (x :: xs), ind =>
    '[' :: '\n' :: (spaces (ind + 2) ++ renderVal x (ind + 2)) ++
      (renderItemsT xs (ind + 2) ++ '\n' :: (spaces ind ++ [']']))
  | .obj [], _ => ['{', '}']
  | .obj ((k, v) :: kvs), ind =>
    '{' :: '\n' :: (spaces (ind + 2) ++ (renderKey k ++ renderVal v (ind + 2))) ++
      (renderFieldsT kvs (ind + 2) ++ '\n' :: (spaces ind ++ ['}']))

/-- The `",\n<indent>"`-separated tail items of a rendered array. -/
def renderItemsT : List Json → Nat → List Char
  | [], _ => []
  | x :: xs, ind =>
    ',' :: '\n' :: (spaces ind ++ renderVal x ind) ++ renderItemsT xs ind

/-- The `",\n<indent>"`-separated tail fields of a rendered object. -/
def renderFieldsT : List (String × Json) → Nat → List Char
  | [], _ => []
  | (k, v) :: kvs, ind =>
    ',' :: '\n' :: (spaces ind ++ (renderKey k ++ renderVal v ind)) ++ renderFieldsT kvs ind
end

/-- Stable insertion of a field into a key-sorted field list. -/
def insertField (p : String × Json) : List (String × Json) → List (String × Json)
  | [] => [p]
  | q :: qs => if charsLe p.1.data q.1.data then p :: q :: qs else q :: insertField p qs

/-- Stable insertion sort of object fields by key, modelling the effect of
`sort_keys=True` at one object level. -/
def sortFields : List (String × Json) → List (String × Json)
  | [] => []
  | p :: ps => insertField p (sortFields ps)

mutual
/-- Recursively sort every object's fields by key; composing `renderVal` after
`canonSort` gives exactly `json.dumps(value, indent=2, sort_keys=True)`. -/
def canonSort : Json → Json
  | .null => .null
  | .bool b => .bool b
  | .num n => .num n
  | .str s => .str s
  | .arr xs => .arr (canonList xs)
  | .obj kvs => .obj (sortFields (canonFields kvs))

/-- `canonSort` on every element of an array. -/
def canonList : List Json → List Json
  | [] => []
  | x :: xs => canonSort x :: canonList xs

/-- `canonSort` on every value of a field list. -/
def canonFields : List (String × Json) → List (String × Json)
  | [] => []
  | (k, v) :: kvs => (k, canonSort v) :: canonFields kvs
end

/-- Models `SnapshotHelper._serialize` for JSON-representable values:
`json.dumps(value, indent=2, sort_keys=True, default=str)` (the `model_dump`
probing and the `default=str` fallback only apply to non-JSON inputs, which
are outside the `Json` type). -/
def serialize (v : Json) : String := String.mk (renderVal (canonSort v) 0)

/-- Is `c` one of the four JSON whitespace characters? -/
def wsChar (c : Char) : Bool := c = ' ' || c = '\n' || c = '\t' || c = '\r'

/-- Skip JSON whitespace, as `json.loads` does between tokens. -/
def skipWs : List Char → List Char
  | [] => []
  | c :: cs => if wsChar c then skipWs cs else c :: cs

/-- The numeric value of a hexadecimal digit character. -/
def hexVal (c : Char) : Option Nat :=
  if 48 ≤ c.toNat && c.toNat ≤ 57 then some (c.toNat - 48)
  else if 97 ≤ c.toNat && c.toNat ≤ 102 then some (c.toNat - 87)
  else if 65 ≤ c.toNat && c.toNat ≤ 70 then some (c.toNat - 55)
  else none

/-- Read exactly four hexadecimal digits, the `XXXX` of a `\uXXXX` escape. -/
def readHex4 : List Char → Option (Nat × List Char)
  | a :: b :: c :: d :: rest =>
    match hexVal a, hexVal b, hexVal c, hexVal d with
    | some x, some y, some z, some w => some (((x * 16 + y) * 16 + z) * 16 + w, rest)
    | _, _, _, _ => none
  | _ => none

/-- Read the body of a JSON string after its opening quote, undoing escapes
(including surrogate pairs) like `json.loads`; returns the decoded characters
and the input after the closing quote.  Unescaped control characters are
rejected as in Python's strict mode. -/
def readStr : Nat → List Char → Option (List Char × List Char)
  | 0, _ => none
  | fuel + 1, cs =>
    match cs with
    | [] => none
    | c :: rest =>
      if c = '"' then some ([], rest)
      else if c = '\\' then
        match rest with
        | [] => none
        | e :: rest2 =>
          if e = '"' then mapCons '"' (readStr fuel rest2)
          else if e = '\\' then mapCons '\\' (readStr fuel rest2)
          else if e = '/' then mapCons '/' (readStr fuel rest2)
          else if e = 'n' then mapCons '\n' (readStr fuel rest2)
          else if e = 't' then mapCons '\t' (readStr fuel rest2)
          else if e = 'r' then mapCons '\r' (readStr fuel rest2)
          else if e = 'b' then mapCons (Char.ofNat 8) (readStr fuel rest2)
          else if e = 'f' then mapCons (Char.ofNat 12) (readStr fuel rest2)
          else if e = 'u' then
            match readHex4 rest2 with
            | none => none
            | some (n, rest3) =>
              if 55296 ≤ n ∧ n ≤ 56319 then
                match rest3 with
                | b1 :: b2 :: rest4 =>
                  if b1 = '\\' ∧ b2 = 'u' then
                    match readHex4 rest4 with
                    | none => none
                    | some (m, rest5) =>
                      if 56320 ≤ m ∧ m ≤ 57343 then
                        mapCons (Char.ofNat (65536 + (n - 55296) * 1024 + (m - 56320)))
                          (readStr fuel rest5)
                      else none
                  else none
                | _ => none
              else mapCons (Char.ofNat n) (readStr fuel rest3)
          else none
      else if c.toNat < 32 then none
      else mapCons c (readStr fuel rest)
where
  /-- Prepend a decoded character to the pending string-body result. -/
  mapCons (c : Char) : Option (List Char × List Char) → Option (List Char × List Char)
    | none => none
    | some (s, r) => some (c :: s, r)

/-- Read a run of decimal digits with accumulator, stopping at the first
non-digit. -/
def readDigitsAcc : List Char → Nat → Nat × List Char
  | [], acc => (acc, [])
  | c :: cs, acc =>
    if c.isDigit then readDigitsAcc cs (acc * 10 + (c.toNat - 48)) else (acc, c :: cs)

/-- Field lookup by key in a parsed object, modelling Python `dict`
indexing. -/
def lookupField (k : String) : List (String × Json) → Option Json
  | [] => none
  | (k2, v) :: rest => if k.data == k2.data then some v else lookupField k rest

/-- Combine a parsed object field with the fields parsed after it, the way
`json.loads` builds a Python `dict` left to right: when the key occurs again
later, the later value wins (`json.loads` keeps the last of duplicate keys),
otherwise the field is prepended in front of the later ones. -/
def addField (k : String) (v : Json) (kvs : List (String × Json)) : List (String × Json) :=
  match lookupField k kvs with
  | some _ => kvs
  | none => (k, v) :: kvs

mutual
/-- Fuelled recursive-descent JSON parser modelling `json.loads` on the
grammar `json.dumps` emits (integers only, no floats).  Returns the value and
the unconsumed input. -/
def parseVal : Nat → List Char → Option (Json × List Char)
  | 0, _ => none
  | fuel + 1, cs =>
    match skipWs cs with
    | [] => none
    | c :: cs1 =>
      if c = 'n' then
        match cs1 with
        | 'u' :: 'l' :: 'l' :: rest => some (.null, rest)
        | _ => none
      else if c = 't' then
        match cs1 with
        | 'r' :: 'u' :: 'e' :: rest => some (.bool true, rest)
        | _ => none
      else if c = 'f' then
        match cs1 with
        | 'a' :: 'l' :: 's' :: 'e' :: rest => some (.bool false, rest)
        | _ => none
      else if c = '"' then
        match readStr fuel cs1 with
        | none => none
        | some (s, rest) => some (.str (String.mk s), rest)
      else if c = '-' then
        match cs1 with
        | [] => none
        | d :: _ =>
          if d.isDigit then
            let p := readDigitsAcc cs1 0
            some (.num (-(p.1 : Int)), p.2)
          else none
      else if c = '[' then parseArr fuel cs1
      else if c = '{' then parseObj fuel cs1
      else if c.isDigit then
        let p := readDigitsAcc (c :: cs1) 0
        some (.num (p.1 : Int), p.2)
      else none

/-- Parse an array body after the opening bracket. -/
def parseArr : Nat → List Char → Option (Json × List Char)
  | 0, _ => none
  | fuel + 1, cs =>
    match skipWs cs with
    | [] => none
    | c :: cs1 =>
      if c = ']' then some (.arr [], cs1)
      else
        match parseVal fuel (c :: cs1) with
        | none => none
        | some (v, r1) =>
          match parseArrRest fuel r1 with
          | none => none
          | some (vs, r2) => some (.arr (v :: vs), r2)

/-- Parse the remaining items of an array after one item. -/
def parseArrRest : Nat → List Char → Option (List Json × List Char)
  | 0, _ => none
  | fuel + 1, cs =>
    match skipWs cs with
    | [] => none
    | c :: cs1 =>
      if c = ']' then some ([], cs1)
      else if c = ',' then
        match parseVal fuel cs1 with
        | none => none
        | some (v, r1) =>
          match parseArrRest fuel r1 with
          | none => none
          | some (vs, r2) => some (v :: vs, r2)
      else none

/-- Parse an object body after the opening brace. -/
def parseObj : Nat → List Char → Option (Json × List Char)
  | 0, _ => none
  | fuel + 1, cs =>
    match skipWs cs with
    | [] => none
    | c :: cs1 =>
      if c = '}' then some (.obj [], cs1)
      else if c = '"' then
        match readStr fuel cs1 with
        | none => none
        | some (k, r1) =>
          match skipWs r1 with
          | [] => none
          | c2 :: r2 =>
            if c2 = ':' then
              match parseVal fuel r2 with
              | none => none
              | some (v, r3) =>
                match parseObjRest fuel r3 with
                | none => none
                | some (kvs, r4) => some (.obj (addField (String.mk k) v kvs), r4)
            else none
      else none

/-- Parse the remaining fields of an object after one field. -/
def parseObjRest : Nat → List Char → Option (List (String × Json) × List Char)
  | 0, _ => none
  | fuel + 1, cs =>
    match skipWs cs with
    | [] => none
    | c :: cs1 =>
      if c = '}' then some ([], cs1)
      else if c = ',' then
        match skipWs cs1 with
        | [] => none
        | c2 :: r1 =>
          if c2 = '"' then
            match readStr fuel r1 with
            | none => none
            | some (k, r2) =>
              match skipWs r2 with
              | [] => none
              | c3 :: r3 =>
                if c3 = ':' then
                  match parseVal fuel r3 with
                  | none => none
                  | some (v, r4) =>
                    match parseObjRest fuel r4 with
                    | none => none
                    | some (kvs, r5) => some (addField (String.mk k) v kvs, r5)
                else none
          else none
      else none
end

/-- Models `json.loads` (hence `SnapshotHelper._deserialize`): parse one JSON
document, allowing trailing whitespace only; `none` models the `ValueError`
`json.loads` raises on invalid input. -/
def loads (s : String) : Option Json :=
  match parseVal (s.data.length + 1) s.data with
  | some (v, rest) => if skipWs rest = [] then some v else none
  | none => none

mutual
/-- Structural equality of decoded JSON values, modelling Python `==` on the
results of `json.loads`: dictionaries compare as key-value sets (same size and
every key of one maps to an equal value in the other), lists positionally. -/
def jbeq : Json → Json → Bool
  | .null, .null => true
  | .bool a, .bool b => a == b
  | .num a, .num b => a == b
  | .str a, .str b => a.data == b.data
  | .arr a, .arr b => jbeqList a b
  | .obj a, .obj b => Nat.beq a.length b.length && jsubset a b
  | _, _ => false

/-- Positional equality of two decoded lists. -/
def jbeqList : List Json → List Json → Bool
  | [], [] => true
  | a :: as, b :: bs => jbeq a b && jbeqList as bs
  | _, _ => false

/-- Every field of the first list maps, via its key, to an equal value in the
second (one inclusion of Python `dict` equality). -/
def jsubset : List (String × Json) → List (String × Json) → Bool
  | [], _ => true
  | (k, v) :: rest, b =>
    (match lookupField k b with
     | some w => jbeq v w
     | none => false) && jsubset rest b
end

/-! ### Snapshot store (`src/pytest_mcp/snapshot.py`) -/

/-- The file extension of a snapshot file: `.json` for structured snapshots,
`.txt` for text snapshots. -/
inductive FileExt where
  | json
  | txt
deriving DecidableEq

/-- A snapshot file path inside the snapshot directory, split as `pathlib`
splits it: the stem (file name up to the last suffix) and the suffix. -/
structure SnapPath where
  stem : String
  ext : FileExt
deriving DecidableEq

/-- The snapshot directory contents: an association list from paths to file
contents, with at most one entry per path. -/
abbrev Store := List (SnapPath × String)

/-- Read a file if it exists (`Path.exists` / `Path.read_text`). -/
def lookupFile : Store → SnapPath → Option String
  | [], _ => none
  | (p, content) :: rest, q => if p == q then some content else lookupFile rest q

/-- Write a file (`Path.write_text`), overwriting any previous contents. -/
def writeFile (s : Store) (p : SnapPath) (content : String) : Store :=
  s.filter (fun e => !(e.1 == p)) ++ [(p, content)]

/-- Remove a file (`Path.unlink`). -/
def removeFile (s : Store) (p : SnapPath) : Store :=
  s.filter (fun e => !(e.1 == p))

/-- The state of a `SnapshotHelper`: the invoking test's node name, the global
`--mcp-update-snapshots` flag, and the snapshot directory contents. -/
structure SnapshotHelper where
  node_name : String
  update_snapshots : Bool
  files : Store

/-- The outcome of one snapshot helper call: normal return, `pytest.skip`,
a raised `AssertionError`, or a raised JSON decode error. -/
inductive SnapOutcome where
  | ok
  | skipped (msg : String)
  | assertionFailed (msg : String)
  | raisedDecodeError
deriving DecidableEq

/-- Models `self.request.node.name.split("[")[0]`: the test name with any
bracketed parameterization suffix stripped. -/
def test_name (h : SnapshotHelper) : String :=
  String.mk (h.node_name.data.takeWhile (fun c => !(c == '[')))

/-- Models `SnapshotHelper._get_snapshot_path`: the `.json` file named
`<test_name>__<snapshot_name>.json`. -/
def get_snapshot_path (h : SnapshotHelper) (name : String) : SnapPath :=
  { stem := test_name h ++ "__" ++ name, ext := .json }

/-- The `pytest.skip` message used after an update-mode write. -/
def updatedMsg (name : String) : String := "Updated snapshot: " ++ name

/-- The `AssertionError` message of a structured snapshot mismatch, with the
expected and actual canonical text inline. -/
def mismatchMsg (name expected actual : String) : String :=
  "Snapshot mismatch for " ++ pyQuote ++ name ++ pyQuote ++ ".\nExpected:\n" ++ expected ++
    "\n\nActual:\n" ++ actual ++ "\n\nTo update snapshots, run with --mcp-update-snapshots"

/-- The `AssertionError` message of a text snapshot mismatch. -/
def textMismatchMsg (name expected actual : String) : String :=
  "Text snapshot mismatch for " ++ pyQuote ++ name ++ pyQuote ++ ".\nExpected:\n" ++ expected ++
    "\n\nActual:\n" ++ actual ++ "\n\nTo update snapshots, run with --mcp-update-snapshots"

/-- Models `SnapshotHelper.assert_match`: serialize the value; write the
snapshot when update mode is on or no record exists (skipping the invocation
when the write was an update); otherwise decode both the persisted and the
fresh canonical text and compare for deep equality. -/
def assert_match (h : SnapshotHelper) (value : Json) (name : String)
    (update : Option Bool) : SnapOutcome × SnapshotHelper :=
  let path := get_snapshot_path h name
  let should_update := update.getD h.update_snapshots
  let actual_json := serialize value
  match should_update, lookupFile h.files path with
  | true, _ =>
    (.skipped (updatedMsg name), { h with files := writeFile h.files path actual_json })
  | false, none =>
    (.ok, { h with files := writeFile h.files path actual_json })
  | false, some expected_json =>
    match loads expected_json, loads actual_json with
    | some expected, some actual =>
      if jbeq actual expected then (.ok, h)
      else (.assertionFailed (mismatchMsg name expected_json actual_json), h)
    | _, _ => (.raisedDecodeError, h)

/-- Models `SnapshotHelper.assert_match_text`: like `assert_match` but the
path gets suffix `.txt` (`with_suffix(".txt")`) and raw text is compared with
no structured decoding. -/
def assert_match_text (h : SnapshotHelper) (text : String) (name : String)
    (update : Option Bool) : SnapOutcome × SnapshotHelper :=
  let path := { get_snapshot_path h name with ext := .txt }
  let should_update := update.getD h.update_snapshots
  match should_update, lookupFile h.files path with
  | true, _ =>
    (.skipped (updatedMsg name), { h with files := writeFile h.files path text })
  | false, none =>
    (.ok, { h with files := writeFile h.files path text })
  | false, some expected_text =>
    if text == expected_text then (.ok, h)
    else (.assertionFailed (textMismatchMsg name expected_text text), h)

/-- Models `SnapshotHelper.get_snapshot`: `none` (the absent marker) when the
`.json` record does not exist, the decoded value otherwise; `Except.error`
models the decode error `json.loads` would raise on an unreadable record. -/
def get_snapshot (h : SnapshotHelper) (name : String) : Except Unit (Option Json) :=
  match lookupFile h.files (get_snapshot_path h name) with
  | none => .ok none
  | some s =>
    match loads s with
    | some v => .ok (some v)
    | none => .error ()

/-- Models `SnapshotHelper.delete_snapshot`: unlink the `.json` record if it
exists, no-op otherwise. -/
def delete_snapshot (h : SnapshotHelper) (name : String) : SnapshotHelper :=
  let path := get_snapshot_path h name
  match lookupFile h.files path with
  | some _ => { h with files := removeFile h.files path }
  | none => h

/-- Remove every occurrence of `needle` from `haystack`, scanning left to
right: models `str.replace(needle, "")` for a non-empty needle.  Fuelled so
the definition reduces; `replaceAllEmpty` supplies sufficient fuel. -/
def dropNeedleAux : Nat → List Char → List Char → List Char
  | 0, hs, _ => hs
  | _ + 1, [], _ => []
  | fuel + 1, c :: rest, needle =>
    if needle.isEmpty then c :: rest
    else if startsWithChars (c :: rest) needle then
      dropNeedleAux fuel (List.drop needle.length (c :: rest)) needle
    else c :: dropNeedleAux fuel rest needle

/-- Models `str.replace(needle, "")` for a non-empty needle. -/
def replaceAllEmpty (hs needle : List Char) : List Char :=
  dropNeedleAux (hs.length + 1) hs needle

/-- Sorted insertion of a string into a sorted list (Python `sorted`). -/
def insertStr (s : String) : List String → List String
  | [] => [s]
  | t :: ts => if charsLe s.data t.data then s :: t :: ts else t :: insertStr s ts

/-- Insertion sort on strings by code points, modelling Python `sorted`. -/
def sortStrings : List String → List String
  | [] => []
  | s :: ss => insertStr s (sortStrings ss)

/-- Models `SnapshotHelper.list_snapshots`: glob `<test_name>__*.json` (a
store entry matches when its suffix is `.json` and its stem starts with
`<test_name>__`), strip the `<test_name>__` prefix from each stem with
`str.replace`, and sort the names. -/
def list_snapshots (h : SnapshotHelper) : List String :=
  let pref := (test_name h ++ "__").data
  let names :=
    (h.files.filter (fun e => e.1.ext == FileExt.json && startsWithChars e.1.stem.data pref)).map
      (fun e => String.mk (replaceAllEmpty e.1.stem.data pref))
  sortStrings names

/-! ### Mock MCP client (`src/pytest_mcp/client.py`) -/

namespace Client

/-- The scoped resources `connect` acquires on the `AsyncExitStack`: the
`stdio_client` transport context, then the `ClientSession` context. -/
inductive Resrc where
  | stdioTransport
  | clientSession
deriving DecidableEq

/-- The connection-state fields of a `MockMCPClient`.  Each `Bool` records
whether the corresponding field is non-`None`; `exit_stack` holds the list of
resources entered so far (in acquisition order) when the stack exists. -/
structure ClientState where
  session : Bool
  read_stream : Bool
  write_stream : Bool
  exit_stack : Option (List Resrc)
deriving DecidableEq

/-- The fully disconnected state: every field `None`. -/
def disconnectedState : ClientState :=
  { session := false, read_stream := false, write_stream := false, exit_stack := none }

/-- `MockMCPClient.is_connected`: the session field is non-`None`. -/
def is_connected (st : ClientState) : Bool := st.session

/-- The step of `connect` at which the underlying library raised. -/
inductive ConnectStep where
  | spawn
  | sessionEnter
  | handshake
deriving DecidableEq

/-- The `ConnectionError` that `connect` raises, wrapping the original
exception as its cause (`raise ... from e`). -/
inductive ClientErr where
  | connectionError (cause : ConnectStep)
deriving DecidableEq

/-- Environment behaviour of one `connect` attempt: whether each awaited
library step succeeds. -/
structure ConnectEnv where
  spawn_ok : Bool
  session_enter_ok : Bool
  handshake_ok : Bool
deriving DecidableEq

/-- `AsyncExitStack.aclose`: contexts exit in reverse (LIFO) acquisition
order.  Returns the release order. -/
def aclose (stack : List Resrc) : List Resrc := stack.reverse

/-- Observable outcome of a `connect` call: the result, whether the
already-connected warning was logged, the final field state, and the list of
resources released while handling an error, in release order. -/
structure ConnectOutcome where
  result : Except ClientErr Unit
  warned_already_connected : Bool
  state : ClientState
  released : List Resrc

/-- The `except Exception` handler of `connect`: close the exit stack if it
exists, null out every connection field, and raise a `ConnectionError` from
the original exception. -/
def connectCleanup (st : ClientState) (cause : ConnectStep) : ConnectOutcome :=
  { result := .error (.connectionError cause)
    warned_already_connected := false
    state := disconnectedState
    released := match st.exit_stack with | some stack => aclose stack | none => [] }

/-- Models `MockMCPClient.connect`: no-op with a warning when already
connected; otherwise create the exit stack, enter the stdio transport (sets
the streams), enter the client session, and initialize — cleaning up via
`connectCleanup` when any step raises. -/
def connect (env : ConnectEnv) (st : ClientState) : ConnectOutcome :=
  if st.session then
    { result := .ok (), warned_already_connected := true, state := st, released := [] }
  else
    let st1 := { st with exit_stack := some [] }
    if !env.spawn_ok then connectCleanup st1 .spawn
    else
      let st2 := { st1 with
        exit_stack := some [.stdioTransport], read_stream := true, write_stream := true }
      if !env.session_enter_ok then connectCleanup st2 .sessionEnter
      else
        let st3 := { st2 with
          exit_stack := some [.stdioTransport, .clientSession], session := true }
        if !env.handshake_ok then connectCleanup st3 .handshake
        else { result := .ok (), warned_already_connected := false, state := st3, released := [] }

/-- Models `MockMCPClient.disconnect`: close the exit stack if present and
null out every field.  Returns the new state and the release order. -/
def disconnect (st : ClientState) : ClientState × List Resrc :=
  (disconnectedState, match st.exit_stack with | some stack => aclose stack | none => [])

end Client

/-! ### Test server lifecycle (`src/pytest_mcp/server.py`) -/

namespace Server

/-- The state of an `MCPTestServer`: the managed client (when `_client` is
set) and the configured timeout. -/
structure ServerState where
  client : Option Client.ClientState
  timeout : Nat
deriving DecidableEq

/-- The `RuntimeError` message of `get_client` on a non-started server. -/
def notStartedMsg : String :=
  "Server is not started. Use " ++ pyQuote ++ "async with MCPTestServer(...)" ++ pyQuote ++
    " or call start()"

/-- Models `MCPTestServer.get_client`: raise `RuntimeError` unless the client
exists and is connected. -/
def get_client (st : ServerState) : Except String Client.ClientState :=
  match st.client with
  | none => .error notStartedMsg
  | some c => if Client.is_connected c then .ok c else .error notStartedMsg

/-- `MCPTestServer.is_running`. -/
def is_running (st : ServerState) : Bool :=
  match st.client with
  | none => false
  | some c => Client.is_connected c

/-- Outcome of a `stop` call: whether an exception propagated to the caller,
whether the warning `Error stopping MCP test server` was logged, and the new
state. -/
structure StopOutcome where
  result : Except String Unit
  logged_warning : Bool
  state : ServerState

/-- Models `MCPTestServer.stop`: when a client exists, `try` disconnect,
`except Exception` log a warning, `finally` clear `_client`.
`disconnect_exc` is the exception the underlying disconnect raises, if any. -/
def stop (disconnect_exc : Option String) (st : ServerState) : StopOutcome :=
  match st.client with
  | none => { result := .ok (), logged_warning := false, state := st }
  | some _ =>
    match disconnect_exc with
    | none => { result := .ok (), logged_warning := false, state := { st with client := none } }
    | some _ => { result := .ok (), logged_warning := true, state := { st with client := none } }

/-- The `RuntimeError` raised by `start`, wrapping the connection failure. -/
inductive ServerErr where
  | runtimeError (cause : Client.ClientErr)
deriving DecidableEq

/-- Models `MCPTestServer.start`: assign a fresh client and connect it; on
failure call `stop()` for cleanup and raise `RuntimeError` from the cause. -/
def start (env : Client.ConnectEnv) (st : ServerState) : Except ServerErr Unit × ServerState :=
  let out := Client.connect env Client.disconnectedState
  match out.result with
  | .ok _ => (.ok (), { st with client := some out.state })
  | .error e =>
    let stopped := stop none { st with client := some out.state }
    (.error (.runtimeError e), stopped.state)

/-- Environment behaviour of one `wait_for_ready` probe: the outcome of the
`list_tools` health-check call and the time it takes to resolve. -/
structure ProbeEnv where
  list_tools_result : Except String Unit
  duration : Nat

/-- The `TimeoutError` raised by `wait_for_ready`, carrying the message of its
cause (`raise TimeoutError(f"Server did not become ready: {e}") from e`). -/
inductive WaitErr where
  | timeoutError (msg : String)
deriving DecidableEq

/-- Observable outcome of `wait_for_ready`: result and the time spent waiting
on the probe before returning. -/
structure WaitOutcome where
  result : Except WaitErr Unit
  elapsed : Nat

/-- Models `MCPTestServer.wait_for_ready`: resolve the timeout default, then
`get_client()` and `list_tools()` inside `try`, turning any exception into a
`TimeoutError` from it.  The resolved timeout is not read after its
assignment, exactly as in the source: the call waits the probe's full
duration whatever the timeout. -/
def wait_for_ready (probe : ProbeEnv) (st : ServerState) (timeout : Option Nat) : WaitOutcome :=
  let _resolved_timeout := timeout.getD st.timeout
  match get_client st with
  | .error e =>
    { result := .error (.timeoutError ("Server did not become ready: " ++ e)), elapsed := 0 }
  | .ok _ =>
    match probe.list_tools_result with
    | .ok _ => { result := .ok (), elapsed := probe.duration }
    | .error e =>
      { result := .error (.timeoutError ("Server did not become ready: " ++ e))
        elapsed := probe.duration }

/-- The state of an `MCPTestServerFactory`: its tracked servers. -/
structure FactoryState where
  servers : List ServerState
deriving DecidableEq

/-- One pass of the `stop_all` loop: stop each tracked server in order with
its own disconnect behaviour, collecting the logged-warning flags.  `stop`
itself never raises, so the `try`/`except` around each call never fires. -/
def stopEach : List ServerState → List (Option String) → List Bool
  | [], _ => []
  | s :: rest, excs =>
    let exc := excs.headD none
    (stop exc s).logged_warning :: stopEach rest (excs.tailD [])

/-- Models `MCPTestServerFactory.stop_all`: stop every tracked server,
swallowing (logging) individual failures, then clear the tracked list. -/
def stop_all (excs : List (Option String)) (f : FactoryState) :
    Except String (FactoryState × List Bool) :=
  .ok ({ servers := [] }, stopEach f.servers excs)

end Server

/-! ### Assertion helpers (`src/pytest_mcp/assertions.py`) -/

namespace Assertions

/-- A Python exception as the assertion helpers observe it: an
`AssertionError` or any other exception, with its `str(e)` message. -/
inductive PyExc where
  | assertionError (msg : String)
  | otherError (msg : String)
deriving DecidableEq

/-- `str(e)`. -/
def excMsg : PyExc → String
  | .assertionError m => m
  | .otherError m => m

/-- Is the exception an `AssertionError`? -/
def isAssertionErr : PyExc → Bool
  | .assertionError _ => true
  | .otherError _ => false

/-- The failure message when the tool unexpectedly succeeds. -/
def succeededMsg (tool_name : String) : String :=
  "Tool " ++ pyQuote ++ tool_name ++ pyQuote ++ " was expected to raise an error but succeeded"

/-- The failure message when the tool fails with the wrong message. -/
def wrongMsgMsg (tool_name expected actual : String) : String :=
  "Tool " ++ pyQuote ++ tool_name ++ pyQuote ++ " raised error but message doesn" ++ pyQuote ++
    "t match.\nExpected substring: " ++ expected ++ "\nActual error: " ++ actual

/-- Python truthiness of the optional `error_message` argument (`None` and the
empty string are falsy). -/
def pyTruthy : Option String → Bool
  | none => false
  | some s => !s.data.isEmpty

/-- Models `assert_tool_returns_error`: call the tool; if it succeeds, raise
an `AssertionError`; re-raise any `AssertionError` unchanged
(`except AssertionError: raise`); for any other exception, fail when a truthy
`error_message` is not a substring of `str(e)`, else return the exception. -/
def assert_tool_returns_error (call_result : Except PyExc Unit) (tool_name : String)
    (error_message : Option String) : Except PyExc PyExc :=
  match call_result with
  | .ok _ => .error (.assertionError (succeededMsg tool_name))
  | .error e =>
    match e with
    | .assertionError m => .error (.assertionError m)
    | .otherError m =>
      if pyTruthy error_message && !containsStr m (error_message.getD "") then
        .error (.assertionError (wrongMsgMsg tool_name (error_message.getD "") m))
      else .ok e

end Assertions

/-! ### Specification-side measures and predicates -/

/-- The input does not start with a decimal digit (so a parsed number cannot
run into it). -/
def NoDigitHead (cs : List Char) : Prop := ∀ c, cs.head? = some c → c.isDigit = false

/-- Every character of the list is JSON whitespace. -/
def WsOnly (cs : List Char) : Prop := ∀ c, c ∈ cs → wsChar c = true

mutual
/-- Parser fuel sufficient for one rendered value. -/
def jsize : Json → Nat
  | .null => 1
  | .bool _ => 1
  | .num _ => 1
  | .str s => s.data.length + 2
  | .arr [] => 2
  | .arr (x :: xs) => 2 + jsize x + jsizeItems xs
  | .obj [] => 2
  | .obj ((k, v) :: kvs) => 3 + k.data.length + jsize v + jsizeFields kvs

/-- Parser fuel sufficient for the rendered tail items of an array. -/
def jsizeItems : List Json → Nat
  | [] => 1
  | x :: xs => 1 + jsize x + jsizeItems xs

/-- Parser fuel sufficient for the rendered tail fields of an object. -/
def jsizeFields : List (String × Json) → Nat
  | [] => 1
  | (k, v) :: kvs => 2 + k.data.length + jsize v + jsizeFields kvs
end

/-- Number of decimal digits `natCharsAux` emits with the given fuel. -/
def ndigits : Nat → Nat → Nat
  | 0, _ => 0
  | fuel + 1, n => if n < 10 then 1 else ndigits fuel (n / 10) + 1

/-- The keys of a decoded object are pairwise distinct (true of every `dict`
`json.loads` builds). -/
def keysNodup : List (String × Json) → Prop
  | [] => True
  | (k, _) :: rest => lookupField k rest = none ∧ keysNodup rest

mutual
/-- Every object anywhere inside the value has pairwise distinct keys. -/
def NodupJson : Json → Prop
  | .null => True
  | .bool _ => True
  | .num _ => True
  | .str _ => True
  | .arr xs => NodupJsonList xs
  | .obj kvs => keysNodup kvs ∧ NodupJsonFields kvs

/-- `NodupJson` on every element. -/
def NodupJsonList : List Json → Prop
  | [] => True
  | x :: xs => NodupJson x ∧ NodupJsonList xs

/-- `NodupJson` on every field value. -/
def NodupJsonFields : List (String × Json) → Prop
  | [] => True
  | (_, v) :: kvs => NodupJson v ∧ NodupJsonFields kvs
end

/-- A fully connected client state, as `connect` leaves it on success. -/
def connectedClientState : Client.ClientState :=
  { session := true, read_stream := true, write_stream := true
    exit_stack := some [.stdioTransport, .clientSession] }

/-- The first step of `connect` at which the environment raises, if any. -/
def failStep (env : Client.ConnectEnv) : Option Client.ConnectStep :=
  if !env.spawn_ok then some .spawn
  else if !env.session_enter_ok then some .sessionEnter
  else if !env.handshake_ok then some .handshake
  else none

/-- The resources `connect` has acquired on the exit stack when the failing
step raises. -/
def acquiredBeforeFail (env : Client.ConnectEnv) : List Client.Resrc :=
  if !env.spawn_ok then []
  else if !env.session_enter_ok then [.stdioTransport]
  else [.stdioTransport, .clientSession]

/-- The error message of the example tool failure used in the spec. -/
def userNotFoundMsg : String := "User not found: 999"

/-- Did the helper call end in a raised `AssertionError` (as opposed to
returning or raising another exception class)? -/
def raisedAssertionClass : Except Assertions.PyExc Assertions.PyExc → Bool
  | .error e => Assertions.isAssertionErr e
  | .ok _ => false

/-! ## Theorems -/

/-! ### Whitespace and digit characters -/

theorem wsChar_isDigit_false {c : Char} (h : wsChar c = true) : c.isDigit = false := by
  simp only [wsChar, Bool.or_eq_true, decide_eq_true_eq] at h
  rcases h with ((h | h) | h) | h <;> subst h <;> decide

theorem digitChar_isDigit {d : Nat} (h : d < 10) : (digitChar d).isDigit = true := by
  interval_cases d <;> decide

theorem digitChar_toNat {d : Nat} (h : d < 10) : (digitChar d).toNat = 48 + d := by
  interval_cases d <;> decide

theorem digitChar_guards {d : Nat} (h : d < 10) :
    wsChar (digitChar d) = false ∧ digitChar d ≠ 'n' ∧ digitChar d ≠ 't' ∧
    digitChar d ≠ 'f' ∧ digitChar d ≠ '"' ∧ digitChar d ≠ '-' ∧ digitChar d ≠ '[' ∧
    digitChar d ≠ '{' ∧ digitChar d ≠ ']' ∧ digitChar d ≠ '}' := by
  interval_cases d <;> exact (by decide)

theorem skipWs_cons_nonWs {c : Char} (h : wsChar c = false) (l : List Char) :
    skipWs (c :: l) = c :: l := by
  simp [skipWs, h]

theorem skipWs_append_ws {ws : List Char} (h : WsOnly ws) (l : List Char) :
    skipWs (ws ++ l) = skipWs l := by
  induction ws with
  | nil => rfl
  | cons c t ih =>
    have hc : wsChar c = true := h c (List.mem_cons_self c t)
    have ht : WsOnly t := fun x hx => h x (List.mem_cons_of_mem c hx)
    simp [skipWs, hc, ih ht]

theorem wsOnly_spaces (n : Nat) : WsOnly (spaces n) := by
  intro c hc
  have : c = ' ' := List.eq_of_mem_replicate hc
  subst this
  decide

theorem wsOnly_newline_spaces (n : Nat) : WsOnly ('\n' :: spaces n) := by
  intro c hc
  rcases List.mem_cons.mp hc with h | h
  · subst h; decide
  · exact wsOnly_spaces n c h

/-! ### Decimal digits round-trip -/

theorem natCharsAux_append (fuel : Nat) :
    ∀ (n : Nat) (acc rest : List Char),
      natCharsAux fuel n acc ++ rest = natCharsAux fuel n (acc ++ rest) := by
  induction fuel with
  | zero => intro n acc rest; rfl
  | succ f ih =>
    intro n acc rest
    by_cases h : n < 10
    · simp [natCharsAux, h]
    · simp only [natCharsAux, h, if_false]
      exact ih (n / 10) _ rest

theorem readDigitsAcc_natCharsAux (fuel : Nat) :
    ∀ (n : Nat) (tail : List Char) (acc : Nat), n < 10 ^ fuel →
      readDigitsAcc (natCharsAux fuel n tail) acc =
        readDigitsAcc tail (acc * 10 ^ ndigits fuel n + n) := by
  induction fuel with
  | zero =>
    intro n tail acc hn
    have : n = 0 := by simpa using hn
    subst this
    simp [natCharsAux, ndigits]
  | succ f ih =>
    intro n tail acc hn
    by_cases h : n < 10
    · have hd : (digitChar n).isDigit = true := digitChar_isDigit h
      have ht : (digitChar n).toNat = 48 + n := digitChar_toNat h
      simp only [natCharsAux, h, if_true, readDigitsAcc, hd, ht, ndigits, pow_one]
      congr 1
      omega
    · have hdiv : n / 10 < 10 ^ f := by
        rw [pow_succ] at hn
        omega
      have hmlt : n % 10 < 10 := Nat.mod_lt n (by omega)
      have hd : (digitChar (n % 10)).isDigit = true := digitChar_isDigit hmlt
      have ht : (digitChar (n % 10)).toNat = 48 + n % 10 := digitChar_toNat hmlt
      simp only [natCharsAux, h, if_false, ndigits]
      rw [ih (n / 10) _ acc hdiv]
      simp only [readDigitsAcc, hd, if_true, ht]
      congr 1
      have h1 : 48 + n % 10 - 48 = n % 10 := by omega
      rw [h1, pow_succ, Nat.add_mul, Nat.mul_assoc, Nat.add_assoc]
      congr 1
      omega

theorem readDigitsAcc_stop {rest : List Char} (h : NoDigitHead rest) (acc : Nat) :
    readDigitsAcc rest acc = (acc, rest) := by
  cases rest with
  | nil => rfl
  | cons c t =>
    have hc : c.isDigit = false := h c rfl
    simp [readDigitsAcc, hc]

theorem n_lt_ten_pow (n : Nat) : n < 10 ^ (n + 1) := by
  calc n < 2 ^ n := Nat.lt_two_pow n
    _ ≤ 10 ^ n := Nat.pow_le_pow_left (by omega) n
    _ ≤ 10 ^ (n + 1) := Nat.pow_le_pow_right (by omega) (by omega)

theorem readDigitsAcc_natChars {rest : List Char} (h : NoDigitHead rest) (n : Nat) :
    readDigitsAcc (natChars n ++ rest) 0 = (n, rest) := by
  rw [natChars, natCharsAux_append, List.nil_append,
    readDigitsAcc_natCharsAux (n + 1) n rest 0 (n_lt_ten_pow n)]
  simpa using readDigitsAcc_stop h n

theorem natCharsAux_head (fuel : Nat) :
    ∀ (n : Nat) (tail : List Char), 1 ≤ fuel → n < 10 ^ fuel →
      ∃ d t, natCharsAux fuel n tail = digitChar d :: t ∧ d < 10 := by
  induction fuel with
  | zero => intro n tail h; omega
  | succ f ih =>
    intro n tail _ hn
    by_cases h : n < 10
    · exact ⟨n, tail, by simp [natCharsAux, h], h⟩
    · have hf : 1 ≤ f := by
        by_contra hf
        have : f = 0 := by omega
        subst this
        simp only [pow_succ, pow_zero, one_mul] at hn
        omega
      have hdiv : n / 10 < 10 ^ f := by
        rw [pow_succ] at hn
        omega
      obtain ⟨d, t, ht, hd⟩ := ih (n / 10) (digitChar (n % 10) :: tail) hf hdiv
      exact ⟨d, t, by simp [natCharsAux, h, ht], hd⟩

theorem natChars_head (n : Nat) :
    ∃ d t, natChars n = digitChar d :: t ∧ d < 10 :=
  natCharsAux_head (n + 1) n [] (by omega) (n_lt_ten_pow n)

/-! ### Character validity and hex digits -/

theorem char_toNat_lt (c : Char) : c.toNat < 1114112 := by
  have h := c.valid
  rcases h with h | ⟨h1, h2⟩ <;> simp [Char.toNat] <;> omega

theorem char_not_surrogate (c : Char) : c.toNat < 55296 ∨ 57344 ≤ c.toNat := by
  have h := c.valid
  rcases h with h | ⟨h1, h2⟩ <;> simp [Char.toNat] <;> omega

theorem hexVal_hexDigit {d : Nat} (h : d < 16) : hexVal (hexDigit d) = some d := by
  interval_cases d <;> decide

theorem readHex4_hex4 {n : Nat} (h : n < 65536) (rest : List Char) :
    readHex4 (hex4 n ++ rest) = some (n, rest) := by
  have h1 : n / 4096 < 16 := by omega
  have h2 : n / 256 % 16 < 16 := by omega
  have h3 : n / 16 % 16 < 16 := by omega
  have h4 : n % 16 < 16 := by omega
  simp only [hex4, List.cons_append, List.nil_append, readHex4,
    hexVal_hexDigit h1, hexVal_hexDigit h2, hexVal_hexDigit h3, hexVal_hexDigit h4]
  congr 2
  omega

theorem escapeChar_length_pos (c : Char) : 1 ≤ (escapeChar c).length := by
  unfold escapeChar
  split_ifs <;> simp [hex4]

theorem length_le_escList (l : List Char) : l.length ≤ (escList l).length := by
  induction l with
  | nil => simp [escList]
  | cons c cs ih =>
    simp only [escList, List.length_append, List.length_cons]
    have := escapeChar_length_pos c
    omega

/-! ### String body round-trip -/

theorem readStr_quote (f : Nat) (rest : List Char) :
    readStr (f + 1) ('"' :: rest) = some ([], rest) := by
  simp [readStr]

theorem readStr_esc_quote (f : Nat) (r : List Char) :
    readStr (f + 1) ('\\' :: '"' :: r) = readStr.mapCons '"' (readStr f r) := by
  simp [readStr]

theorem readStr_esc_backslash (f : Nat) (r : List Char) :
    readStr (f + 1) ('\\' :: '\\' :: r) = readStr.mapCons '\\' (readStr f r) := by
  simp [readStr]

theorem readStr_esc_n (f : Nat) (r : List Char) :
    readStr (f + 1) ('\\' :: 'n' :: r) = readStr.mapCons '\n' (readStr f r) := by
  simp [readStr]

theorem readStr_esc_t (f : Nat) (r : List Char) :
    readStr (f + 1) ('\\' :: 't' :: r) = readStr.mapCons '\t' (readStr f r) := by
  simp [readStr]

theorem readStr_esc_r (f : Nat) (r : List Char) :
    readStr (f + 1) ('\\' :: 'r' :: r) = readStr.mapCons '\r' (readStr f r) := by
  simp [readStr]

theorem readStr_esc_b (f : Nat) (r : List Char) :
    readStr (f + 1) ('\\' :: 'b' :: r) = readStr.mapCons (Char.ofNat 8) (readStr f r) := by
  simp [readStr]

theorem readStr_esc_f (f : Nat) (r : List Char) :
    readStr (f + 1) ('\\' :: 'f' :: r) = readStr.mapCons (Char.ofNat 12) (readStr f r) := by
  simp [readStr]

theorem readStr_esc_u (f : Nat) (r r3 : List Char) (n : Nat)
    (hh : readHex4 r = some (n, r3)) (hns : ¬(55296 ≤ n ∧ n ≤ 56319)) :
    readStr (f + 1) ('\\' :: 'u' :: r) = readStr.mapCons (Char.ofNat n) (readStr f r3) := by
  simp [readStr, hh, hns]

theorem readStr_esc_u_pair (f : Nat) (r r4 r5 : List Char) (n m : Nat)
    (hh : readHex4 r = some (n, '\\' :: 'u' :: r4)) (hs : 55296 ≤ n ∧ n ≤ 56319)
    (hh2 : readHex4 r4 = some (m, r5)) (hs2 : 56320 ≤ m ∧ m ≤ 57343) :
    readStr (f + 1) ('\\' :: 'u' :: r) =
      readStr.mapCons (Char.ofNat (65536 + (n - 55296) * 1024 + (m - 56320))) (readStr f r5) := by
  simp [readStr, hh, hs, hh2, hs2]

theorem readStr_plain (f : Nat) {c : Char} (r : List Char)
    (h1 : c ≠ '"') (h2 : c ≠ '\\') (h3 : ¬ c.toNat < 32) :
    readStr (f + 1) (c :: r) = readStr.mapCons c (readStr f r) := by
  rw [readStr.eq_def]
  simp [h1, h2, h3]

theorem readStr_escList :
    ∀ (l : List Char) (fuel : Nat) (rest : List Char), l.length + 1 ≤ fuel →
      readStr fuel (escList l ++ ('"' :: rest)) = some (l, rest) := by
  intro l
  induction l with
  | nil =>
    intro fuel rest hf
    obtain ⟨f, rfl⟩ : ∃ f, fuel = f + 1 := ⟨fuel - 1, by omega⟩
    simpa [escList] using readStr_quote f rest
  | cons c cs ih =>
    intro fuel rest hf
    obtain ⟨f, rfl⟩ : ∃ f, fuel = f + 1 := ⟨fuel - 1, by omega⟩
    have hcs : cs.length + 1 ≤ f := by
      simp only [List.length_cons] at hf
      omega
    have ihr := ih f rest hcs
    simp only [escList, List.append_assoc]
    by_cases h1 : c = '"'
    · subst h1
      rw [show escapeChar '"' = ['\\', '"'] from rfl]
      simp only [List.cons_append, List.nil_append]
      rw [readStr_esc_quote f _, ihr]
      rfl
    · by_cases h2 : c = '\\'
      · subst h2
        rw [show escapeChar '\\' = ['\\', '\\'] from rfl]
        simp only [List.cons_append, List.nil_append]
        rw [readStr_esc_backslash f _, ihr]
        rfl
      · by_cases h3 : c = '\n'
        · subst h3
          rw [show escapeChar '\n' = ['\\', 'n'] from rfl]
          simp only [List.cons_append, List.nil_append]
          rw [readStr_esc_n f _, ihr]
          rfl
        · by_cases h4 : c = '\t'
          · subst h4
            rw [show escapeChar '\t' = ['\\', 't'] from rfl]
            simp only [List.cons_append, List.nil_append]
            rw [readStr_esc_t f _, ihr]
            rfl
          · by_cases h5 : c = '\r'
            · subst h5
              rw [show escapeChar '\r' = ['\\', 'r'] from rfl]
              simp only [List.cons_append, List.nil_append]
              rw [readStr_esc_r f _, ihr]
              rfl
            · by_cases h6 : c.toNat = 8
              · have hc : Char.ofNat 8 = c := h6 ▸ Char.ofNat_toNat c
                unfold escapeChar
                rw [if_neg h1, if_neg h2, if_neg h3, if_neg h4, if_neg h5, if_pos h6]
                simp only [List.cons_append, List.nil_append]
                rw [readStr_esc_b f _, ihr, hc]
                rfl
              · by_cases h7 : c.toNat = 12
                · have hc : Char.ofNat 12 = c := h7 ▸ Char.ofNat_toNat c
                  unfold escapeChar
                  rw [if_neg h1, if_neg h2, if_neg h3, if_neg h4, if_neg h5, if_neg h6,
                    if_pos h7]
                  simp only [List.cons_append, List.nil_append]
                  rw [readStr_esc_f f _, ihr, hc]
                  rfl
                · by_cases h8 : c.toNat < 32 ∨ 126 < c.toNat
                  · by_cases h9 : c.toNat < 65536
                    · have hc : Char.ofNat c.toNat = c := Char.ofNat_toNat c
                      have hsur := char_not_surrogate c
                      have hns : ¬(55296 ≤ c.toNat ∧ c.toNat ≤ 56319) := by omega
                      unfold escapeChar
                      rw [if_neg h1, if_neg h2, if_neg h3, if_neg h4, if_neg h5, if_neg h6,
                        if_neg h7, if_pos h8, if_pos h9]
                      simp only [List.cons_append, List.append_assoc]
                      rw [readStr_esc_u f _ _ c.toNat (readHex4_hex4 h9 _) hns, ihr, hc]
                      rfl
                    · have hlt := char_toNat_lt c
                      have hn1 : 55296 + (c.toNat - 65536) / 1024 < 65536 := by omega
                      have hn2 : 56320 + (c.toNat - 65536) % 1024 < 65536 := by omega
                      have hc : Char.ofNat c.toNat = c := Char.ofNat_toNat c
                      have hcond1 : 55296 ≤ 55296 + (c.toNat - 65536) / 1024 ∧
                          55296 + (c.toNat - 65536) / 1024 ≤ 56319 := by omega
                      have hcond2 : 56320 ≤ 56320 + (c.toNat - 65536) % 1024 ∧
                          56320 + (c.toNat - 65536) % 1024 ≤ 57343 := by omega
                      unfold escapeChar
                      rw [if_neg h1, if_neg h2, if_neg h3, if_neg h4, if_neg h5, if_neg h6,
                        if_neg h7, if_pos h8, if_neg h9]
                      simp only [List.cons_append, List.append_assoc, List.nil_append]
                      rw [readStr_esc_u_pair f _ _ _ _ _ (readHex4_hex4 hn1 _) hcond1
                        (readHex4_hex4 hn2 _) hcond2, ihr]
                      have harg : 65536 +
                          (55296 + (c.toNat - 65536) / 1024 - 55296) * 1024 +
                          (56320 + (c.toNat - 65536) % 1024 - 56320) = c.toNat := by omega
                      rw [harg, hc]
                      rfl
                  · unfold escapeChar
                    rw [if_neg h1, if_neg h2, if_neg h3, if_neg h4, if_neg h5, if_neg h6,
                      if_neg h7, if_neg h8]
                    simp only [List.cons_append, List.nil_append]
                    rw [readStr_plain f _ h1 h2 (by omega), ihr]
                    rfl

/-! ### Parser step lemmas -/

theorem parseVal_ws_append {ws : List Char} (h : WsOnly ws) (fuel : Nat) (cs : List Char) :
    parseVal fuel (ws ++ cs) = parseVal fuel cs := by
  cases fuel with
  | zero => rfl
  | succ f => simp only [parseVal, skipWs_append_ws h]

theorem parseVal_null_lit (f : Nat) (l : List Char) :
    parseVal (f + 1) ('n' :: 'u' :: 'l' :: 'l' :: l) = some (.null, l) := by
  simp [parseVal, skipWs, wsChar]

theorem parseVal_true_lit (f : Nat) (l : List Char) :
    parseVal (f + 1) ('t' :: 'r' :: 'u' :: 'e' :: l) = some (.bool true, l) := by
  simp [parseVal, skipWs, wsChar]

theorem parseVal_false_lit (f : Nat) (l : List Char) :
    parseVal (f + 1) ('f' :: 'a' :: 'l' :: 's' :: 'e' :: l) = some (.bool false, l) := by
  simp [parseVal, skipWs, wsChar]

theorem parseVal_open_bracket (f : Nat) (l : List Char) :
    parseVal (f + 1) ('[' :: l) = parseArr f l := by
  simp [parseVal, skipWs, wsChar]

theorem parseVal_open_brace (f : Nat) (l : List Char) :
    parseVal (f + 1) ('{' :: l) = parseObj f l := by
  simp [parseVal, skipWs, wsChar]

theorem parseVal_quote {f : Nat} {l s r : List Char} (h : readStr f l = some (s, r)) :
    parseVal (f + 1) ('"' :: l) = some (.str (String.mk s), r) := by
  simp [parseVal, skipWs, wsChar, h]

theorem wsChar_of_isDigit {c : Char} (hc : c.isDigit = true) : wsChar c = false := by
  cases hw : wsChar c
  · rfl
  · rw [wsChar_isDigit_false hw] at hc
    exact absurd hc (by simp)

theorem isDigit_ne_n {c : Char} (hc : c.isDigit = true) : c ≠ 'n' :=
  fun h => absurd hc (by subst h; decide)

theorem isDigit_ne_t {c : Char} (hc : c.isDigit = true) : c ≠ 't' :=
  fun h => absurd hc (by subst h; decide)

theorem isDigit_ne_f {c : Char} (hc : c.isDigit = true) : c ≠ 'f' :=
  fun h => absurd hc (by subst h; decide)

theorem isDigit_ne_quote {c : Char} (hc : c.isDigit = true) : c ≠ '"' :=
  fun h => absurd hc (by subst h; decide)

theorem isDigit_ne_minus {c : Char} (hc : c.isDigit = true) : c ≠ '-' :=
  fun h => absurd hc (by subst h; decide)

theorem isDigit_ne_open_bracket {c : Char} (hc : c.isDigit = true) : c ≠ '[' :=
  fun h => absurd hc (by subst h; decide)

theorem isDigit_ne_open_brace {c : Char} (hc : c.isDigit = true) : c ≠ '{' :=
  fun h => absurd hc (by subst h; decide)

theorem isDigit_ne_close_bracket {c : Char} (hc : c.isDigit = true) : c ≠ ']' :=
  fun h => absurd hc (by subst h; decide)

theorem parseVal_digit (f : Nat) {c : Char} (hc : c.isDigit = true) (l : List Char) :
    parseVal (f + 1) (c :: l) =
      some (.num ((readDigitsAcc (c :: l) 0).1 : Int), (readDigitsAcc (c :: l) 0).2) := by
  simp only [parseVal, skipWs, wsChar_of_isDigit hc, Bool.false_eq_true, if_false,
    if_neg (isDigit_ne_n hc), if_neg (isDigit_ne_t hc), if_neg (isDigit_ne_f hc),
    if_neg (isDigit_ne_quote hc), if_neg (isDigit_ne_minus hc),
    if_neg (isDigit_ne_open_bracket hc), if_neg (isDigit_ne_open_brace hc), hc, if_true]

theorem parseVal_minus (f : Nat) {d : Char} (hd : d.isDigit = true) (l : List Char) :
    parseVal (f + 1) ('-' :: d :: l) =
      some (.num (-((readDigitsAcc (d :: l) 0).1 : Int)), (readDigitsAcc (d :: l) 0).2) := by
  simp [parseVal, skipWs, wsChar, hd]

theorem parseArr_ws_append {ws : List Char} (h : WsOnly ws) (fuel : Nat) (cs : List Char) :
    parseArr fuel (ws ++ cs) = parseArr fuel cs := by
  cases fuel with
  | zero => rfl
  | succ f => simp only [parseArr, skipWs_append_ws h]

theorem parseArrRest_ws_append {ws : List Char} (h : WsOnly ws) (fuel : Nat) (cs : List Char) :
    parseArrRest fuel (ws ++ cs) = parseArrRest fuel cs := by
  cases fuel with
  | zero => rfl
  | succ f => simp only [parseArrRest, skipWs_append_ws h]

theorem parseObj_ws_append {ws : List Char} (h : WsOnly ws) (fuel : Nat) (cs : List Char) :
    parseObj fuel (ws ++ cs) = parseObj fuel cs := by
  cases fuel with
  | zero => rfl
  | succ f => simp only [parseObj, skipWs_append_ws h]

theorem parseObjRest_ws_append {ws : List Char} (h : WsOnly ws) (fuel : Nat) (cs : List Char) :
    parseObjRest fuel (ws ++ cs) = parseObjRest fuel cs := by
  cases fuel with
  | zero => rfl
  | succ f => simp only [parseObjRest, skipWs_append_ws h]

theorem parseArr_close (f : Nat) (l : List Char) :
    parseArr (f + 1) (']' :: l) = some (.arr [], l) := by
  simp [parseArr, skipWs, wsChar]

theorem parseArr_step (f : Nat) {c : Char} {l r1 r2 : List Char} {v : Json} {vs : List Json}
    (hnws : wsChar c = false) (hnb : c ≠ ']')
    (h1 : parseVal f (c :: l) = some (v, r1)) (h2 : parseArrRest f r1 = some (vs, r2)) :
    parseArr (f + 1) (c :: l) = some (.arr (v :: vs), r2) := by
  simp [parseArr, skipWs, hnws, hnb, h1, h2]

theorem parseArrRest_close (f : Nat) (l : List Char) :
    parseArrRest (f + 1) (']' :: l) = some ([], l) := by
  simp [parseArrRest, skipWs, wsChar]

theorem parseArrRest_comma (f : Nat) {l r1 r2 : List Char} {v : Json} {vs : List Json}
    (h1 : parseVal f l = some (v, r1)) (h2 : parseArrRest f r1 = some (vs, r2)) :
    parseArrRest (f + 1) (',' :: l) = some (v :: vs, r2) := by
  simp [parseArrRest, skipWs, wsChar, h1, h2]

theorem parseObj_close (f : Nat) (l : List Char) :
    parseObj (f + 1) ('}' :: l) = some (.obj [], l) := by
  simp [parseObj, skipWs, wsChar]

theorem parseObj_key (f : Nat) {l k r1 r2 r3 r4 : List Char} {v : Json}
    {kvs : List (String × Json)}
    (hk : readStr f l = some (k, r1)) (hsk : skipWs r1 = ':' :: r2)
    (hv : parseVal f r2 = some (v, r3)) (hrest : parseObjRest f r3 = some (kvs, r4)) :
    parseObj (f + 1) ('"' :: l) = some (.obj (addField (String.mk k) v kvs), r4) := by
  simp [parseObj, skipWs, wsChar, hk, hsk, hv, hrest]

theorem parseObjRest_close (f : Nat) (l : List Char) :
    parseObjRest (f + 1) ('}' :: l) = some ([], l) := by
  simp [parseObjRest, skipWs, wsChar]

theorem parseObjRest_comma (f : Nat) {l k r1 r2 r3 r4 r5 : List Char} {v : Json}
    {kvs : List (String × Json)}
    (hsk1 : skipWs l = '"' :: r1) (hk : readStr f r1 = some (k, r2))
    (hsk2 : skipWs r2 = ':' :: r3) (hv : parseVal f r3 = some (v, r4))
    (hrest : parseObjRest f r4 = some (kvs, r5)) :
    parseObjRest (f + 1) (',' :: l) = some (addField (String.mk k) v kvs, r5) := by
  simp [parseObjRest, skipWs, wsChar, hsk1, hk, hsk2, hv, hrest]

/-! ### Heads of rendered values -/

theorem renderVal_head (v : Json) (ind : Nat) :
    ∃ c t, renderVal v ind = c :: t ∧ wsChar c = false ∧ c ≠ ']' := by
  cases v with
  | null => exact ⟨'n', _, by rw [renderVal], by decide, by decide⟩
  | bool b =>
    cases b with
    | false => exact ⟨'f', _, by rw [renderVal], by decide, by decide⟩
    | true => exact ⟨'t', _, by rw [renderVal], by decide, by decide⟩
  | num n =>
    by_cases hn : n < 0
    · exact ⟨'-', _, by rw [renderVal, intChars, if_pos hn], by decide, by decide⟩
    · obtain ⟨d, t, ht, hd⟩ := natChars_head n.natAbs
      have hdig := digitChar_isDigit hd
      exact ⟨digitChar d, t, by rw [renderVal, intChars, if_neg hn, ht],
        wsChar_of_isDigit hdig, isDigit_ne_close_bracket hdig⟩
  | str s => exact ⟨'"', _, by rw [renderVal, renderStr], by decide, by decide⟩
  | arr xs =>
    cases xs with
    | nil => exact ⟨'[', _, by rw [renderVal], by decide, by decide⟩
    | cons x xs =>
      refine ⟨'[', '\n' :: ((spaces (ind + 2) ++ renderVal x (ind + 2)) ++
        (renderItemsT xs (ind + 2) ++ '\n' :: (spaces ind ++ [']']))), ?_, by decide, by decide⟩
      rw [renderVal]
      simp only [List.cons_append]
  | obj kvs =>
    match kvs with
    | [] => exact ⟨'{', _, by rw [renderVal], by decide, by decide⟩
    | (k, v) :: kvs =>
      refine ⟨'{', '\n' :: ((spaces (ind + 2) ++ (renderKey k ++ renderVal v (ind + 2))) ++
        (renderFieldsT kvs (ind + 2) ++ '\n' :: (spaces ind ++ ['}']))), ?_, by decide, by decide⟩
      rw [renderVal]
      simp only [List.cons_append]

/-! ### No digit after a rendered value -/

theorem noDigitHead_items_tail (xs : List Json) (ind : Nat) {ws : List Char} (hws : WsOnly ws)
    {b : Char} (hb : b.isDigit = false) (rest : List Char) :
    NoDigitHead (renderItemsT xs ind ++ (ws ++ (b :: rest))) := by
  cases xs with
  | nil =>
    rw [renderItemsT]
    cases ws with
    | nil =>
      intro c hc
      simp only [List.nil_append, List.head?_cons, Option.some.injEq] at hc
      subst hc
      exact hb
    | cons w t =>
      intro c hc
      simp only [List.nil_append, List.cons_append, List.head?_cons, Option.some.injEq] at hc
      subst hc
      exact wsChar_isDigit_false (hws w (List.mem_cons_self w t))
  | cons x xs =>
    intro c hc
    rw [renderItemsT] at hc
    simp only [List.cons_append, List.head?_cons, Option.some.injEq] at hc
    subst hc
    decide

theorem noDigitHead_fields_tail (kvs : List (String × Json)) (ind : Nat) {ws : List Char}
    (hws : WsOnly ws) {b : Char} (hb : b.isDigit = false) (rest : List Char) :
    NoDigitHead (renderFieldsT kvs ind ++ (ws ++ (b :: rest))) := by
  match kvs with
  | [] =>
    rw [renderFieldsT]
    cases ws with
    | nil =>
      intro c hc
      simp only [List.nil_append, List.head?_cons, Option.some.injEq] at hc
      subst hc
      exact hb
    | cons w t =>
      intro c hc
      simp only [List.nil_append, List.cons_append, List.head?_cons, Option.some.injEq] at hc
      subst hc
      exact wsChar_isDigit_false (hws w (List.mem_cons_self w t))
  | (k, v) :: kvs =>
    intro c hc
    rw [renderFieldsT] at hc
    simp only [List.cons_append, List.head?_cons, Option.some.injEq] at hc
    subst hc
    decide

/-! ### Fuel bounds from rendered length -/

mutual
theorem jsize_le_renderVal (v : Json) (ind : Nat) :
    jsize v ≤ (renderVal v ind).length + 1 := by
  match v with
  | .null => rw [jsize, renderVal]; simp
  | .bool true => rw [jsize, renderVal]; simp
  | .bool false => rw [jsize, renderVal]; simp
  | .num n => rw [jsize]; omega
  | .str s =>
    rw [jsize, renderVal, renderStr]
    have := length_le_escList s.data
    simp only [List.length_cons, List.length_append]
    omega
  | .arr [] => rw [jsize, renderVal]; simp
  | .arr (x :: xs) =>
    have h1 := jsize_le_renderVal x (ind + 2)
    have h2 := jsizeItems_le_renderItemsT xs (ind + 2)
    rw [jsize, renderVal]
    simp only [List.length_cons, List.length_append, spaces, List.length_replicate]
    omega
  | .obj [] => rw [jsize, renderVal]; simp
  | .obj ((k, v) :: kvs) =>
    have h1 := jsize_le_renderVal v (ind + 2)
    have h2 := jsizeFields_le_renderFieldsT kvs (ind + 2)
    have h3 := length_le_escList k.data
    rw [jsize, renderVal]
    simp only [List.length_cons, List.length_append, spaces, List.length_replicate,
      renderKey, renderStr]
    omega

theorem jsizeItems_le_renderItemsT (xs : List Json) (ind : Nat) :
    jsizeItems xs ≤ (renderItemsT xs ind).length + 1 := by
  match xs with
  | [] => rw [jsizeItems, renderItemsT]; simp
  | x :: xs =>
    have h1 := jsize_le_renderVal x ind
    have h2 := jsizeItems_le_renderItemsT xs ind
    rw [jsizeItems, renderItemsT]
    simp only [List.length_cons, List.length_append, spaces, List.length_replicate]
    omega

theorem jsizeFields_le_renderFieldsT (kvs : List (String × Json)) (ind : Nat) :
    jsizeFields kvs ≤ (renderFieldsT kvs ind).length + 1 := by
  match kvs with
  | [] => rw [jsizeFields, renderFieldsT]; simp
  | (k, v) :: kvs =>
    have h1 := jsize_le_renderVal v ind
    have h2 := jsizeFields_le_renderFieldsT kvs ind
    have h3 := length_le_escList k.data
    rw [jsizeFields, renderFieldsT]
    simp only [List.length_cons, List.length_append, spaces, List.length_replicate,
      renderKey, renderStr]
    omega
end

/-! ### Leading newline-and-indentation skipping -/

theorem wsOnly_single_space : WsOnly [' '] := by
  intro c hc
  simp only [List.mem_singleton] at hc
  subst hc
  decide

theorem skipWs_nl_spaces (n : Nat) (cs : List Char) :
    skipWs ('\n' :: (spaces n ++ cs)) = skipWs cs := by
  have h : '\n' :: (spaces n ++ cs) = ('\n' :: spaces n) ++ cs := by simp
  rw [h, skipWs_append_ws (wsOnly_newline_spaces n)]

theorem parseVal_nl_spaces (n fuel : Nat) (cs : List Char) :
    parseVal fuel ('\n' :: (spaces n ++ cs)) = parseVal fuel cs := by
  have h : '\n' :: (spaces n ++ cs) = ('\n' :: spaces n) ++ cs := by simp
  rw [h, parseVal_ws_append (wsOnly_newline_spaces n)]

theorem parseVal_space (fuel : Nat) (cs : List Char) :
    parseVal fuel (' ' :: cs) = parseVal fuel cs := by
  have h : ' ' :: cs = [' '] ++ cs := rfl
  rw [h, parseVal_ws_append wsOnly_single_space]

theorem parseArr_nl_spaces (n fuel : Nat) (cs : List Char) :
    parseArr fuel ('\n' :: (spaces n ++ cs)) = parseArr fuel cs := by
  have h : '\n' :: (spaces n ++ cs) = ('\n' :: spaces n) ++ cs := by simp
  rw [h, parseArr_ws_append (wsOnly_newline_spaces n)]

theorem parseObj_nl_spaces (n fuel : Nat) (cs : List Char) :
    parseObj fuel ('\n' :: (spaces n ++ cs)) = parseObj fuel cs := by
  have h : '\n' :: (spaces n ++ cs) = ('\n' :: spaces n) ++ cs := by simp
  rw [h, parseObj_ws_append (wsOnly_newline_spaces n)]

theorem jsize_pos (v : Json) : 1 ≤ jsize v := by
  match v with
  | .null => rw [jsize]
  | .bool _ => rw [jsize]
  | .num _ => rw [jsize]
  | .str s => rw [jsize]; omega
  | .arr [] => rw [jsize]; omega
  | .arr (x :: xs) => rw [jsize]; omega
  | .obj [] => rw [jsize]; omega
  | .obj ((k, v) :: kvs) => rw [jsize]; omega

/-! ### The parser accepts every rendered value -/

mutual
theorem parseVal_renderVal (v : Json) :
    ∀ (ind fuel : Nat) (rest : List Char), jsize v ≤ fuel → NoDigitHead rest →
      ∃ w, parseVal fuel (renderVal v ind ++ rest) = some (w, rest) := by
  match v with
  | .null =>
    intro ind fuel rest hfuel _
    rw [jsize] at hfuel
    obtain ⟨f, rfl⟩ : ∃ f, fuel = f + 1 := ⟨fuel - 1, by omega⟩
    rw [renderVal]
    exact ⟨.null, by simpa using parseVal_null_lit f rest⟩
  | .bool true =>
    intro ind fuel rest hfuel _
    rw [jsize] at hfuel
    obtain ⟨f, rfl⟩ : ∃ f, fuel = f + 1 := ⟨fuel - 1, by omega⟩
    rw [renderVal]
    exact ⟨.bool true, by simpa using parseVal_true_lit f rest⟩
  | .bool false =>
    intro ind fuel rest hfuel _
    rw [jsize] at hfuel
    obtain ⟨f, rfl⟩ : ∃ f, fuel = f + 1 := ⟨fuel - 1, by omega⟩
    rw [renderVal]
    exact ⟨.bool false, by simpa using parseVal_false_lit f rest⟩
  | .num n =>
    intro ind fuel rest hfuel hrest
    rw [jsize] at hfuel
    obtain ⟨f, rfl⟩ : ∃ f, fuel = f + 1 := ⟨fuel - 1, by omega⟩
    rw [renderVal]
    obtain ⟨d, t, ht, hd⟩ := natChars_head n.natAbs
    have hdig := digitChar_isDigit hd
    have hread : readDigitsAcc (natChars n.natAbs ++ rest) 0 = (n.natAbs, rest) :=
      readDigitsAcc_natChars hrest n.natAbs
    by_cases hn : n < 0
    · rw [intChars, if_pos hn]
      refine ⟨.num n, ?_⟩
      rw [ht] at hread ⊢
      simp only [List.cons_append]
      rw [parseVal_minus f hdig]
      simp only [List.cons_append] at hread
      rw [hread]
      have : -((n.natAbs : Nat) : Int) = n := by omega
      rw [this]
    · rw [intChars, if_neg hn]
      refine ⟨.num n, ?_⟩
      rw [ht] at hread ⊢
      simp only [List.cons_append]
      rw [parseVal_digit f hdig]
      simp only [List.cons_append] at hread
      rw [hread]
      have : ((n.natAbs : Nat) : Int) = n := by omega
      rw [this]
  | .str s =>
    intro ind fuel rest hfuel _
    rw [jsize] at hfuel
    obtain ⟨f, rfl⟩ : ∃ f, fuel = f + 1 := ⟨fuel - 1, by omega⟩
    rw [renderVal, renderStr]
    have hr : readStr f (escList s.data ++ ('"' :: rest)) = some (s.data, rest) :=
      readStr_escList s.data f rest (by omega)
    refine ⟨.str s, ?_⟩
    simp only [List.cons_append, List.append_assoc, List.singleton_append,
      List.nil_append]
    rw [parseVal_quote hr]
  | .arr [] =>
    intro ind fuel rest hfuel _
    rw [jsize] at hfuel
    obtain ⟨f, rfl⟩ : ∃ f, fuel = f + 1 := ⟨fuel - 1, by omega⟩
    obtain ⟨f1, rfl⟩ : ∃ f1, f = f1 + 1 := ⟨f - 1, by omega⟩
    rw [renderVal]
    refine ⟨.arr [], ?_⟩
    simp only [List.cons_append, List.nil_append]
    rw [parseVal_open_bracket, parseArr_close]
  | .arr (x :: xs) =>
    intro ind fuel rest hfuel hrest
    rw [jsize] at hfuel
    have hx1 := jsize_pos x
    obtain ⟨f, rfl⟩ : ∃ f, fuel = f + 1 := ⟨fuel - 1, by omega⟩
    obtain ⟨f1, rfl⟩ : ∃ f1, f = f1 + 1 := ⟨f - 1, by omega⟩
    rw [renderVal]
    simp only [List.cons_append, List.append_assoc, List.singleton_append,
      List.nil_append]
    rw [parseVal_open_bracket, parseArr_nl_spaces]
    have hnd : NoDigitHead (renderItemsT xs (ind + 2) ++
        (('\n' :: spaces ind) ++ (']' :: rest))) :=
      noDigitHead_items_tail xs (ind + 2) (wsOnly_newline_spaces ind) (by decide) rest
    obtain ⟨w1, hw1⟩ := parseVal_renderVal x (ind + 2) f1
      (renderItemsT xs (ind + 2) ++ (('\n' :: spaces ind) ++ (']' :: rest))) (by omega) hnd
    obtain ⟨vs, hvs⟩ := parseArrRest_renderItemsT xs (ind + 2) f1 ('\n' :: spaces ind) rest
      (by omega) (wsOnly_newline_spaces ind)
    obtain ⟨c, t, hct, hcw, hcb⟩ := renderVal_head x (ind + 2)
    rw [hct] at hw1 ⊢
    simp only [List.cons_append, List.append_assoc] at hw1 ⊢
    refine ⟨.arr (w1 :: vs), ?_⟩
    rw [parseArr_step f1 hcw hcb hw1 (by simpa using hvs)]
  | .obj [] =>
    intro ind fuel rest hfuel _
    rw [jsize] at hfuel
    obtain ⟨f, rfl⟩ : ∃ f, fuel = f + 1 := ⟨fuel - 1, by omega⟩
    obtain ⟨f1, rfl⟩ : ∃ f1, f = f1 + 1 := ⟨f - 1, by omega⟩
    rw [renderVal]
    refine ⟨.obj [], ?_⟩
    simp only [List.cons_append, List.nil_append]
    rw [parseVal_open_brace, parseObj_close]
  | .obj ((k, v) :: kvs) =>
    intro ind fuel rest hfuel hrest
    rw [jsize] at hfuel
    have hv1 := jsize_pos v
    obtain ⟨f, rfl⟩ : ∃ f, fuel = f + 1 := ⟨fuel - 1, by omega⟩
    obtain ⟨f1, rfl⟩ : ∃ f1, f = f1 + 1 := ⟨f - 1, by omega⟩
    rw [renderVal, renderKey, renderStr]
    simp only [List.cons_append, List.append_assoc, List.singleton_append,
      List.nil_append]
    rw [parseVal_open_brace, parseObj_nl_spaces]
    rw [show (renderFieldsT kvs (ind + 2) ++ '\n' :: (spaces ind ++ '}' :: rest)) =
      (renderFieldsT kvs (ind + 2) ++ (('\n' :: spaces ind) ++ ('}' :: rest))) from by simp]
    have hread : readStr f1 (escList k.data ++
        ('"' :: (':' :: ' ' :: (renderVal v (ind + 2) ++ (renderFieldsT kvs (ind + 2) ++
          (('\n' :: spaces ind) ++ ('}' :: rest))))))) =
        some (k.data, ':' :: ' ' :: (renderVal v (ind + 2) ++ (renderFieldsT kvs (ind + 2) ++
          (('\n' :: spaces ind) ++ ('}' :: rest))))) :=
      readStr_escList k.data f1 _ (by omega)
    have hnd : NoDigitHead (renderFieldsT kvs (ind + 2) ++
        (('\n' :: spaces ind) ++ ('}' :: rest))) :=
      noDigitHead_fields_tail kvs (ind + 2) (wsOnly_newline_spaces ind) (by decide) rest
    obtain ⟨wv, hwv⟩ := parseVal_renderVal v (ind + 2) f1
      (renderFieldsT kvs (ind + 2) ++ (('\n' :: spaces ind) ++ ('}' :: rest))) (by omega) hnd
    obtain ⟨fs, hfs⟩ := parseObjRest_renderFieldsT kvs (ind + 2) f1 ('\n' :: spaces ind) rest
      (by omega) (wsOnly_newline_spaces ind)
    refine ⟨.obj (addField (String.mk k.data) wv fs), ?_⟩
    have hsk : skipWs (':' :: ' ' :: (renderVal v (ind + 2) ++ (renderFieldsT kvs (ind + 2) ++
        (('\n' :: spaces ind) ++ ('}' :: rest))))) =
        ':' :: (' ' :: (renderVal v (ind + 2) ++ (renderFieldsT kvs (ind + 2) ++
          (('\n' :: spaces ind) ++ ('}' :: rest))))) :=
      skipWs_cons_nonWs (by decide) _
    have hv2 : parseVal f1 (' ' :: (renderVal v (ind + 2) ++ (renderFieldsT kvs (ind + 2) ++
        (('\n' :: spaces ind) ++ ('}' :: rest))))) =
        some (wv, renderFieldsT kvs (ind + 2) ++ (('\n' :: spaces ind) ++ ('}' :: rest))) := by
      rw [parseVal_space]
      exact hwv
    rw [parseObj_key f1 hread hsk hv2 (by simpa using hfs)]

theorem parseArrRest_renderItemsT (xs : List Json) :
    ∀ (ind fuel : Nat) (ws rest : List Char), jsizeItems xs ≤ fuel → WsOnly ws →
      ∃ vs, parseArrRest fuel (renderItemsT xs ind ++ (ws ++ (']' :: rest))) =
        some (vs, rest) := by
  match xs with
  | [] =>
    intro ind fuel ws rest hfuel hws
    rw [jsizeItems] at hfuel
    obtain ⟨f, rfl⟩ : ∃ f, fuel = f + 1 := ⟨fuel - 1, by omega⟩
    rw [renderItemsT]
    refine ⟨[], ?_⟩
    simp only [List.nil_append]
    rw [parseArrRest_ws_append hws, parseArrRest_close]
  | x :: xs =>
    intro ind fuel ws rest hfuel hws
    rw [jsizeItems] at hfuel
    obtain ⟨f, rfl⟩ : ∃ f, fuel = f + 1 := ⟨fuel - 1, by omega⟩
    rw [renderItemsT]
    simp only [List.cons_append, List.append_assoc]
    have hnd : NoDigitHead (renderItemsT xs ind ++ (ws ++ (']' :: rest))) :=
      noDigitHead_items_tail xs ind hws (by decide) rest
    obtain ⟨w1, hw1⟩ := parseVal_renderVal x ind f
      (renderItemsT xs ind ++ (ws ++ (']' :: rest))) (by omega) hnd
    obtain ⟨vs, hvs⟩ := parseArrRest_renderItemsT xs ind f ws rest (by omega) hws
    refine ⟨w1 :: vs, ?_⟩
    have hv2 : parseVal f ('\n' :: (spaces ind ++ (renderVal x ind ++
        (renderItemsT xs ind ++ (ws ++ (']' :: rest)))))) =
        some (w1, renderItemsT xs ind ++ (ws ++ (']' :: rest))) := by
      rw [parseVal_nl_spaces]
      exact hw1
    rw [parseArrRest_comma f hv2 hvs]

theorem parseObjRest_renderFieldsT (kvs : List (String × Json)) :
    ∀ (ind fuel : Nat) (ws rest : List Char), jsizeFields kvs ≤ fuel → WsOnly ws →
      ∃ fs, parseObjRest fuel (renderFieldsT kvs ind ++ (ws ++ ('}' :: rest))) =
        some (fs, rest) := by
  match kvs with
  | [] =>
    intro ind fuel ws rest hfuel hws
    rw [jsizeFields] at hfuel
    obtain ⟨f, rfl⟩ : ∃ f, fuel = f + 1 := ⟨fuel - 1, by omega⟩
    rw [renderFieldsT]
    refine ⟨[], ?_⟩
    simp only [List.nil_append]
    rw [parseObjRest_ws_append hws, parseObjRest_close]
  | (k, v) :: kvs =>
    intro ind fuel ws rest hfuel hws
    rw [jsizeFields] at hfuel
    obtain ⟨f, rfl⟩ : ∃ f, fuel = f + 1 := ⟨fuel - 1, by omega⟩
    rw [renderFieldsT, renderKey, renderStr]
    simp only [List.cons_append, List.append_assoc, List.singleton_append,
      List.nil_append]
    have hnd : NoDigitHead (renderFieldsT kvs ind ++ (ws ++ ('}' :: rest))) :=
      noDigitHead_fields_tail kvs ind hws (by decide) rest
    obtain ⟨wv, hwv⟩ := parseVal_renderVal v ind f
      (renderFieldsT kvs ind ++ (ws ++ ('}' :: rest))) (by omega) hnd
    obtain ⟨fs, hfs⟩ := parseObjRest_renderFieldsT kvs ind f ws rest (by omega) hws
    refine ⟨addField (String.mk k.data) wv fs, ?_⟩
    have hsk1 : skipWs ('\n' :: (spaces ind ++ ('"' :: (escList k.data ++
        ('"' :: (':' :: ' ' :: (renderVal v ind ++ (renderFieldsT kvs ind ++
          (ws ++ ('}' :: rest)))))))))) =
        '"' :: (escList k.data ++ ('"' :: (':' :: ' ' :: (renderVal v ind ++
          (renderFieldsT kvs ind ++ (ws ++ ('}' :: rest))))))) := by
      rw [skipWs_nl_spaces]
      exact skipWs_cons_nonWs (by decide) _
    have hread : readStr f (escList k.data ++ ('"' :: (':' :: ' ' :: (renderVal v ind ++
        (renderFieldsT kvs ind ++ (ws ++ ('}' :: rest))))))) =
        some (k.data, ':' :: ' ' :: (renderVal v ind ++ (renderFieldsT kvs ind ++
          (ws ++ ('}' :: rest))))) :=
      readStr_escList k.data f _ (by omega)
    have hsk2 : skipWs (':' :: ' ' :: (renderVal v ind ++ (renderFieldsT kvs ind ++
        (ws ++ ('}' :: rest))))) =
        ':' :: (' ' :: (renderVal v ind ++ (renderFieldsT kvs ind ++ (ws ++ ('}' :: rest))))) :=
      skipWs_cons_nonWs (by decide) _
    have hv2 : parseVal f (' ' :: (renderVal v ind ++ (renderFieldsT kvs ind ++
        (ws ++ ('}' :: rest))))) =
        some (wv, renderFieldsT kvs ind ++ (ws ++ ('}' :: rest))) := by
      rw [parseVal_space]
      exact hwv
    rw [parseObjRest_comma f hsk1 hread hsk2 hv2 hfs]
end

/-! ### `loads` succeeds on every serialized value -/

theorem loads_serialize (v : Json) : ∃ w, loads (serialize v) = some w := by
  have hdata : (serialize v).data = renderVal (canonSort v) 0 := rfl
  have hb := jsize_le_renderVal (canonSort v) 0
  have hnd : NoDigitHead ([] : List Char) := fun c hc => by simp at hc
  obtain ⟨w, hw⟩ := parseVal_renderVal (canonSort v) 0
    ((renderVal (canonSort v) 0).length + 1) [] (by omega) hnd
  rw [List.append_nil] at hw
  refine ⟨w, ?_⟩
  rw [loads, hdata, hw]
  simp [skipWs]

/-! ### Parsed objects have pairwise distinct keys -/

theorem addField_keysNodup {k : String} {v : Json} {kvs : List (String × Json)}
    (hk : keysNodup kvs) : keysNodup (addField k v kvs) := by
  rw [addField]
  cases h : lookupField k kvs with
  | some w => exact hk
  | none => exact ⟨h, hk⟩

theorem addField_fields {k : String} {v : Json} {kvs : List (String × Json)}
    (hv : NodupJson v) (hf : NodupJsonFields kvs) : NodupJsonFields (addField k v kvs) := by
  rw [addField]
  cases h : lookupField k kvs with
  | some w => exact hf
  | none => rw [NodupJsonFields]; exact ⟨hv, hf⟩

theorem parse_nodup : ∀ fuel : Nat,
    (∀ cs v r, parseVal fuel cs = some (v, r) → NodupJson v) ∧
    (∀ cs v r, parseArr fuel cs = some (v, r) → NodupJson v) ∧
    (∀ cs vs r, parseArrRest fuel cs = some (vs, r) → NodupJsonList vs) ∧
    (∀ cs v r, parseObj fuel cs = some (v, r) → NodupJson v) ∧
    (∀ cs kvs r, parseObjRest fuel cs = some (kvs, r) →
      keysNodup kvs ∧ NodupJsonFields kvs) := by
  intro fuel
  induction fuel with
  | zero =>
    refine ⟨?_, ?_, ?_, ?_, ?_⟩ <;> intro cs v r h <;>
      simp [parseVal, parseArr, parseArrRest, parseObj, parseObjRest] at h
  | succ f ih =>
    obtain ⟨ihV, ihA, ihAR, ihO, ihOR⟩ := ih
    refine ⟨?_, ?_, ?_, ?_, ?_⟩
    · intro cs v r h
      rw [parseVal] at h
      split at h
      · exact absurd h (by simp)
      · rename_i c cs1 hsk
        split_ifs at h with h1 h2 h3 h4 h5 h6 h7 h8
        · split at h
          · simp only [Option.some.injEq, Prod.mk.injEq] at h
            obtain ⟨h, -⟩ := h
            rw [← h, NodupJson]
            trivial
          · exact absurd h (by simp)
        · split at h
          · simp only [Option.some.injEq, Prod.mk.injEq] at h
            obtain ⟨h, -⟩ := h
            rw [← h, NodupJson]
            trivial
          · exact absurd h (by simp)
        · split at h
          · simp only [Option.some.injEq, Prod.mk.injEq] at h
            obtain ⟨h, -⟩ := h
            rw [← h, NodupJson]
            trivial
          · exact absurd h (by simp)
        · split at h
          · exact absurd h (by simp)
          · simp only [Option.some.injEq, Prod.mk.injEq] at h
            obtain ⟨h, -⟩ := h
            rw [← h, NodupJson]
            trivial
        · split at h
          · exact absurd h (by simp)
          · split_ifs at h
            simp only [Option.some.injEq, Prod.mk.injEq] at h
            obtain ⟨h, -⟩ := h
            rw [← h, NodupJson]
            trivial
        · exact ihA cs1 v r h
        · exact ihO cs1 v r h
        · simp only [Option.some.injEq, Prod.mk.injEq] at h
          obtain ⟨h, -⟩ := h
          rw [← h, NodupJson]
          trivial
    · intro cs v r h
      rw [parseArr] at h
      split at h
      · exact absurd h (by simp)
      · rename_i c cs1 hsk
        split_ifs at h with h1
        · simp only [Option.some.injEq, Prod.mk.injEq] at h
          obtain ⟨h, -⟩ := h
          rw [← h, NodupJson, NodupJsonList]
          trivial
        · split at h
          · exact absurd h (by simp)
          · rename_i v1 r1 hv1
            split at h
            · exact absurd h (by simp)
            · rename_i vs r2 hvs
              simp only [Option.some.injEq, Prod.mk.injEq] at h
              obtain ⟨h, -⟩ := h
              rw [← h, NodupJson, NodupJsonList]
              exact ⟨ihV _ _ _ hv1, ihAR _ _ _ hvs⟩
    · intro cs vs r h
      rw [parseArrRest] at h
      split at h
      · exact absurd h (by simp)
      · rename_i c cs1 hsk
        split_ifs at h with h1 h2
        · simp only [Option.some.injEq, Prod.mk.injEq] at h
          obtain ⟨h, -⟩ := h
          rw [← h, NodupJsonList]
          trivial
        · split at h
          · exact absurd h (by simp)
          · rename_i v1 r1 hv1
            split at h
            · exact absurd h (by simp)
            · rename_i vs2 r2 hvs
              simp only [Option.some.injEq, Prod.mk.injEq] at h
              obtain ⟨h, -⟩ := h
              rw [← h, NodupJsonList]
              exact ⟨ihV _ _ _ hv1, ihAR _ _ _ hvs⟩
    · intro cs v r h
      rw [parseObj] at h
      split at h
      · exact absurd h (by simp)
      · rename_i c cs1 hsk
        split_ifs at h with h1 h2
        · simp only [Option.some.injEq, Prod.mk.injEq] at h
          obtain ⟨h, -⟩ := h
          rw [← h, NodupJson]
          exact ⟨trivial, trivial⟩
        · split at h
          · exact absurd h (by simp)
          · rename_i k r1 hk
            split at h
            · exact absurd h (by simp)
            · rename_i c2 r2 hsk2
              split_ifs at h
              split at h
              · exact absurd h (by simp)
              · rename_i v1 r3 hv1
                split at h
                · exact absurd h (by simp)
                · rename_i kvs r4 hkvs
                  simp only [Option.some.injEq, Prod.mk.injEq] at h
                  obtain ⟨h, -⟩ := h
                  obtain ⟨hnk, hnf⟩ := ihOR _ _ _ hkvs
                  rw [← h, NodupJson]
                  exact ⟨addField_keysNodup hnk, addField_fields (ihV _ _ _ hv1) hnf⟩
    · intro cs kvs r h
      rw [parseObjRest] at h
      split at h
      · exact absurd h (by simp)
      · rename_i c cs1 hsk
        split_ifs at h with h1 h2
        · simp only [Option.some.injEq, Prod.mk.injEq] at h
          obtain ⟨h, -⟩ := h
          rw [← h]
          exact ⟨trivial, trivial⟩
        · split at h
          · exact absurd h (by simp)
          · rename_i c2 r1 hsk1
            split_ifs at h
            split at h
            · exact absurd h (by simp)
            · rename_i k r2 hk
              split at h
              · exact absurd h (by simp)
              · rename_i c3 r3 hsk2
                split_ifs at h
                split at h
                · exact absurd h (by simp)
                · rename_i v1 r4 hv1
                  split at h
                  · exact absurd h (by simp)
                  · rename_i kvs2 r5 hkvs
                    simp only [Option.some.injEq, Prod.mk.injEq] at h
                    obtain ⟨h, -⟩ := h
                    obtain ⟨hnk, hnf⟩ := ihOR _ _ _ hkvs
                    rw [← h]
                    exact ⟨addField_keysNodup hnk,
                      addField_fields (ihV _ _ _ hv1) hnf⟩

theorem loads_nodup {s : String} {w : Json} (h : loads s = some w) : NodupJson w := by
  rw [loads] at h
  split at h
  · rename_i v rest hp
    split_ifs at h
    simp only [Option.some.injEq] at h
    rw [← h]
    exact (parse_nodup (s.data.length + 1)).1 _ _ _ hp
  · exact absurd h (by simp)

/-! ### Reflexivity of decoded-value equality on parsed values -/

theorem lookupField_self {k : String} {v : Json} {kvs : List (String × Json)}
    (hnd : keysNodup kvs) (hmem : (k, v) ∈ kvs) : lookupField k kvs = some v := by
  induction kvs with
  | nil => simp at hmem
  | cons p rest ih =>
    obtain ⟨k2, v2⟩ := p
    rw [keysNodup] at hnd
    rcases List.mem_cons.mp hmem with h | h
    · obtain ⟨rfl, rfl⟩ := Prod.mk.injEq .. |>.mp h
      rw [lookupField]
      simp
    · by_cases hk : k.data = k2.data
      · exfalso
        have hkk : k = k2 := by
          have e1 : String.mk k.data = String.mk k2.data := by rw [hk]
          simpa using e1
        subst hkk
        have := ih hnd.2 h
        rw [hnd.1] at this
        exact absurd this (by simp)
      · rw [lookupField]
        have hbe : (k.data == k2.data) = false := by
          simp only [beq_eq_false_iff_ne, ne_eq]
          exact hk
        rw [hbe]
        simp only [Bool.false_eq_true, if_false]
        exact ih hnd.2 h

mutual
theorem jbeq_refl (v : Json) : NodupJson v → jbeq v v = true := by
  match v with
  | .null => intro _; rw [jbeq]
  | .bool b => intro _; rw [jbeq]; simp
  | .num n => intro _; rw [jbeq]; simp
  | .str s => intro _; rw [jbeq]; simp
  | .arr xs =>
    intro h
    rw [NodupJson] at h
    rw [jbeq]
    exact jbeqList_refl xs h
  | .obj kvs =>
    intro h
    rw [NodupJson] at h
    rw [jbeq]
    simp only [Nat.beq_refl, Bool.true_and]
    exact jsubset_self kvs kvs h.1 h.2 (fun k v hm => hm)

theorem jbeqList_refl (xs : List Json) : NodupJsonList xs → jbeqList xs xs = true := by
  match xs with
  | [] => intro _; rw [jbeqList]
  | x :: rest =>
    intro h
    rw [NodupJsonList] at h
    rw [jbeqList, jbeq_refl x h.1, jbeqList_refl rest h.2]
    rfl

theorem jsubset_self (a b : List (String × Json)) :
    keysNodup b → NodupJsonFields a → (∀ k v, (k, v) ∈ a → (k, v) ∈ b) →
      jsubset a b = true := by
  match a with
  | [] => intro _ _ _; rw [jsubset]
  | (k, v) :: rest =>
    intro hb ha hsub
    rw [NodupJsonFields] at ha
    rw [jsubset]
    have hlk : lookupField k b = some v :=
      lookupField_self hb (hsub k v (List.mem_cons_self _ _))
    rw [hlk]
    simp only [jbeq_refl v ha.1,
      jsubset_self rest b hb ha.2 (fun k2 v2 hm => hsub k2 v2 (List.mem_cons_of_mem _ hm)),
      Bool.and_self]
end

/-! ### Snapshot store lemmas -/

theorem lookupFile_filter_self (s : Store) (p : SnapPath) :
    lookupFile (s.filter (fun e => !(e.1 == p))) p = none := by
  induction s with
  | nil => rfl
  | cons e rest ih =>
    obtain ⟨p1, c1⟩ := e
    by_cases h : p1 = p
    · subst h
      simpa using ih
    · have hb : (p1 == p) = false := by simpa using h
      simp only [List.filter_cons, hb, Bool.not_false, if_true]
      rw [lookupFile, hb]
      simpa using ih

theorem lookupFile_append_right {s1 : Store} (h : lookupFile s1 p = none) (s2 : Store) :
    lookupFile (s1 ++ s2) p = lookupFile s2 p := by
  induction s1 with
  | nil => rfl
  | cons e rest ih =>
    obtain ⟨p1, c1⟩ := e
    rw [lookupFile] at h
    by_cases hb : (p1 == p) = true
    · rw [hb] at h
      simp at h
    · have hb2 : (p1 == p) = false := by simpa using hb
      rw [hb2] at h
      simp only [Bool.false_eq_true, if_false] at h
      rw [List.cons_append, lookupFile, hb2]
      simp only [Bool.false_eq_true, if_false]
      exact ih h

theorem lookupFile_writeFile_self (s : Store) (p : SnapPath) (c : String) :
    lookupFile (writeFile s p c) p = some c := by
  rw [writeFile, lookupFile_append_right (lookupFile_filter_self s p), lookupFile]
  simp

theorem lookupFile_filter_ne {p q : SnapPath} (hne : q ≠ p) (s : Store) :
    lookupFile (s.filter (fun e => !(e.1 == p))) q = lookupFile s q := by
  induction s with
  | nil => rfl
  | cons e rest ih =>
    obtain ⟨p1, c1⟩ := e
    by_cases h : p1 = p
    · subst h
      have hb : (p1 == q) = false := by
        simp only [beq_eq_false_iff_ne, ne_eq]
        exact fun he => hne he.symm
      simp only [List.filter_cons, beq_self_eq_true, Bool.not_true, if_false]
      rw [lookupFile, hb]
      simpa using ih
    · have hb : (p1 == p) = false := by simpa using h
      simp only [List.filter_cons, hb, Bool.not_false, if_true]
      rw [lookupFile, lookupFile]
      exact if_congr Iff.rfl rfl ih

theorem lookupFile_writeFile_ne {p q : SnapPath} (hne : q ≠ p) (s : Store) (c : String) :
    lookupFile (writeFile s p c) q = lookupFile s q := by
  rw [writeFile]
  have hstep : lookupFile (s.filter (fun e => !(e.1 == p)) ++ [(p, c)]) q =
      lookupFile (s.filter (fun e => !(e.1 == p))) q := by
    induction s.filter (fun e => !(e.1 == p)) with
    | nil =>
      rw [List.nil_append, lookupFile, lookupFile]
      have : (p == q) = false := by
        simp only [beq_eq_false_iff_ne, ne_eq]
        exact fun he => hne he.symm
      rw [this]
      simp [lookupFile]
    | cons e rest ih =>
      obtain ⟨p1, c1⟩ := e
      rw [List.cons_append, lookupFile, lookupFile]
      exact if_congr Iff.rfl rfl ih
  rw [hstep, lookupFile_filter_ne hne]

theorem lookupFile_removeFile_ne {p q : SnapPath} (hne : q ≠ p) (s : Store) :
    lookupFile (removeFile s p) q = lookupFile s q := by
  rw [removeFile]
  exact lookupFile_filter_ne hne s

theorem filter_writeFile_of_excluded {keep : SnapPath × String → Bool} {p : SnapPath}
    (hk : ∀ content, keep (p, content) = false) (s : Store) (c : String) :
    (writeFile s p c).filter keep = s.filter keep := by
  rw [writeFile, List.filter_append]
  have h2 : List.filter keep [(p, c)] = [] := by
    simp [List.filter_cons, hk c]
  rw [h2, List.append_nil]
  induction s with
  | nil => rfl
  | cons e rest ih =>
    obtain ⟨p1, c1⟩ := e
    by_cases h : p1 = p
    · subst h
      simp only [List.filter_cons, beq_self_eq_true, Bool.not_true, if_false, hk c1]
      simpa [List.filter_cons, hk c1] using ih
    · have hb : (p1 == p) = false := by simpa using h
      simp only [List.filter_cons, hb, Bool.not_false, if_true]
      rw [ih]

/-! ### Branch equations for the snapshot helpers -/

theorem assert_match_update_true {h : SnapshotHelper} {v : Json} {name : String}
    {u : Option Bool} (hu : u.getD h.update_snapshots = true) :
    assert_match h v name u = (.skipped (updatedMsg name),
      { h with files := writeFile h.files (get_snapshot_path h name) (serialize v) }) := by
  simp only [assert_match, hu]

theorem assert_match_first_write {h : SnapshotHelper} {v : Json} {name : String}
    {u : Option Bool} (hu : u.getD h.update_snapshots = false)
    (hl : lookupFile h.files (get_snapshot_path h name) = none) :
    assert_match h v name u = (.ok,
      { h with files := writeFile h.files (get_snapshot_path h name) (serialize v) }) := by
  simp only [assert_match, hu, hl]

theorem assert_match_compare {h : SnapshotHelper} {v : Json} {name stored : String}
    {u : Option Bool} (hu : u.getD h.update_snapshots = false)
    (hl : lookupFile h.files (get_snapshot_path h name) = some stored) :
    assert_match h v name u =
      (match loads stored, loads (serialize v) with
       | some expected, some actual =>
         if jbeq actual expected then (.ok, h)
         else (.assertionFailed (mismatchMsg name stored (serialize v)), h)
       | _, _ => (.raisedDecodeError, h)) := by
  simp only [assert_match, hu, hl]

theorem assert_match_text_cases (h : SnapshotHelper) (text name : String) (u : Option Bool) :
    ((assert_match_text h text name u).2.node_name = h.node_name) ∧
    ((assert_match_text h text name u).2.files = h.files ∨
      (assert_match_text h text name u).2.files =
        writeFile h.files { get_snapshot_path h name with ext := .txt } text) := by
  rw [assert_match_text]
  split
  · exact ⟨rfl, Or.inr rfl⟩
  · exact ⟨rfl, Or.inr rfl⟩
  · split
    · exact ⟨rfl, Or.inl rfl⟩
    · exact ⟨rfl, Or.inl rfl⟩

/-! ### Substring containment -/

theorem startsWithChars_self_append (x r : List Char) :
    startsWithChars (x ++ r) x = true := by
  induction x with
  | nil => cases r <;> rfl
  | cons c cs ih =>
    rw [List.cons_append, startsWithChars, ih]
    simp

theorem containsChars_nil_needle (l : List Char) : containsChars l [] = true := by
  cases l <;> rfl

theorem containsChars_prefix (x post : List Char) : containsChars (x ++ post) x = true := by
  cases x with
  | nil => exact containsChars_nil_needle _
  | cons c cs =>
    rw [List.cons_append, containsChars]
    have := startsWithChars_self_append (c :: cs) post
    rw [List.cons_append] at this
    rw [this]
    simp

theorem containsChars_append_left (a : List Char) {l x : List Char}
    (h : containsChars l x = true) : containsChars (a ++ l) x = true := by
  induction a with
  | nil => simpa using h
  | cons c cs ih =>
    rw [List.cons_append, containsChars, ih]
    simp

theorem mismatchMsg_contains_expected (name expected actual : String) :
    containsStr (mismatchMsg name expected actual) expected = true := by
  rw [containsStr, mismatchMsg]
  simp only [String.data_append, List.append_assoc]
  apply containsChars_append_left
  apply containsChars_append_left
  apply containsChars_append_left
  apply containsChars_append_left
  apply containsChars_append_left
  exact containsChars_prefix _ _

theorem mismatchMsg_contains_actual (name expected actual : String) :
    containsStr (mismatchMsg name expected actual) actual = true := by
  rw [containsStr, mismatchMsg]
  simp only [String.data_append, List.append_assoc]
  apply containsChars_append_left
  apply containsChars_append_left
  apply containsChars_append_left
  apply containsChars_append_left
  apply containsChars_append_left
  apply containsChars_append_left
  apply containsChars_append_left
  exact containsChars_prefix _ _

/-! ### Claim theorems: snapshot engine -/

/-- C4: with update mode off and no pre-existing record, `assert_match v name`
followed immediately by `assert_match v name` again never raises: the first
call persists the canonical serialized form and returns normally, and the
second call decodes both the persisted and the freshly-serialized forms and
finds them deeply equal, again returning normally. -/
theorem C4_snapshot_roundtrip (h : SnapshotHelper) (v : Json) (name : String)
    (hupd : h.update_snapshots = false)
    (hnone : lookupFile h.files (get_snapshot_path h name) = none) :
    (assert_match h v name none).1 = .ok ∧
    lookupFile (assert_match h v name none).2.files (get_snapshot_path h name) =
      some (serialize v) ∧
    (assert_match (assert_match h v name none).2 v name none).1 = .ok := by
  have hu : (none : Option Bool).getD h.update_snapshots = false := hupd
  have h1 := assert_match_first_write (v := v) (u := none) hu hnone
  rw [h1]
  refine ⟨rfl, lookupFile_writeFile_self _ _ _, ?_⟩
  have hl2 : lookupFile
      (writeFile h.files (get_snapshot_path h name) (serialize v))
      (get_snapshot_path h name) = some (serialize v) := lookupFile_writeFile_self _ _ _
  have h2 := assert_match_compare
    (h := { h with files := writeFile h.files (get_snapshot_path h name) (serialize v) })
    (v := v) (u := none) hu hl2
  rw [h2]
  obtain ⟨w, hw⟩ := loads_serialize v
  rw [hw]
  simp [jbeq_refl w (loads_nodup hw)]

/-- Witness for C4 at a concrete helper, value and name. -/
theorem C4_snapshot_roundtrip_witness :
    (assert_match { node_name := "test_demo", update_snapshots := false, files := [] }
        (.obj [("a", .num 1)]) "x" none).1 = .ok ∧
    lookupFile (assert_match { node_name := "test_demo", update_snapshots := false, files := [] }
        (.obj [("a", .num 1)]) "x" none).2.files
      (get_snapshot_path { node_name := "test_demo", update_snapshots := false, files := [] }
        "x") = some (serialize (.obj [("a", .num 1)])) ∧
    (assert_match
        (assert_match { node_name := "test_demo", update_snapshots := false, files := [] }
          (.obj [("a", .num 1)]) "x" none).2
        (.obj [("a", .num 1)]) "x" none).1 = .ok :=
  C4_snapshot_roundtrip
    { node_name := "test_demo", update_snapshots := false, files := [] }
    (.obj [("a", .num 1)]) "x" rfl rfl

/-- C5: with update mode off and a record already stored, `assert_match` fails
precisely when the decoded persisted record and the decoded canonical form of
the new value are not deeply equal, and the failure message carries both the
expected and the actual canonical text. -/
theorem C5_snapshot_mismatch (h : SnapshotHelper) (v ev : Json) (name stored : String)
    (hupd : h.update_snapshots = false)
    (hstored : lookupFile h.files (get_snapshot_path h name) = some stored)
    (hparse : loads stored = some ev) :
    ∃ av, loads (serialize v) = some av ∧
      ((assert_match h v name none).1 = .ok ↔ jbeq av ev = true) ∧
      (jbeq av ev = false →
        (assert_match h v name none).1 =
          .assertionFailed (mismatchMsg name stored (serialize v)) ∧
        containsStr (mismatchMsg name stored (serialize v)) stored = true ∧
        containsStr (mismatchMsg name stored (serialize v)) (serialize v) = true) := by
  obtain ⟨av, hav⟩ := loads_serialize v
  have hu : (none : Option Bool).getD h.update_snapshots = false := hupd
  have hc := assert_match_compare (v := v) (u := none) hu hstored
  refine ⟨av, hav, ?_, ?_⟩
  · rw [hc, hparse, hav]
    cases hb : jbeq av ev
    · simp [hb]
    · simp [hb]
  · intro hb
    rw [hc, hparse, hav]
    refine ⟨?_, mismatchMsg_contains_expected name stored (serialize v),
      mismatchMsg_contains_actual name stored (serialize v)⟩
    simp [hb]

/-- Witness for C5: storing `{"a": 1}` under name `x` and then asserting
`{"a": 2}` raises an assertion failure whose message contains both canonical
texts, in particular the fragments with the conflicting values. -/
theorem C5_snapshot_mismatch_witness :
    (assert_match
        (assert_match { node_name := "test_demo", update_snapshots := false, files := [] }
          (.obj [("a", .num 1)]) "x" none).2
        (.obj [("a", .num 2)]) "x" none).1 =
      .assertionFailed (mismatchMsg "x" (serialize (.obj [("a", .num 1)]))
        (serialize (.obj [("a", .num 2)]))) ∧
    containsStr (mismatchMsg "x" (serialize (.obj [("a", .num 1)]))
      (serialize (.obj [("a", .num 2)]))) "\"a\": 1" = true ∧
    containsStr (mismatchMsg "x" (serialize (.obj [("a", .num 1)]))
      (serialize (.obj [("a", .num 2)]))) "\"a\": 2" = true := by
  have happ := C5_snapshot_mismatch
    (assert_match { node_name := "test_demo", update_snapshots := false, files := [] }
      (.obj [("a", .num 1)]) "x" none).2
    (.obj [("a", .num 2)]) (.obj [("a", .num 1)]) "x" (serialize (.obj [("a", .num 1)]))
    (by decide) (by decide) rfl
  obtain ⟨av, hav, hiff, hmis⟩ := happ
  have hl : loads (serialize (Json.obj [("a", .num 2)])) =
      some (Json.obj [("a", .num 2)]) := rfl
  have hav2 : av = Json.obj [("a", .num 2)] := by
    rw [hl] at hav
    exact (Option.some.inj hav).symm
  subst hav2
  have hb : jbeq (Json.obj [("a", .num 2)]) (Json.obj [("a", .num 1)]) = false := rfl
  obtain ⟨hfail, hce, hca⟩ := hmis hb
  exact ⟨hfail, by decide, by decide⟩

/-- C6: `assert_match` reports the invocation as a skip exactly when the write
is due to an update request; a first-encounter write (no existing record,
update mode off) writes the record and returns normally as a non-skip; an
update-mode write writes the record and is reported as a skip, never as a
silent pass or a failure. -/
theorem C6_snapshot_skip_iff (h : SnapshotHelper) (v : Json) (name : String)
    (u : Option Bool) :
    ((assert_match h v name u).1 = .skipped (updatedMsg name) ↔
      u.getD h.update_snapshots = true) ∧
    (u.getD h.update_snapshots = true →
      (assert_match h v name u).2.files =
        writeFile h.files (get_snapshot_path h name) (serialize v)) ∧
    (u.getD h.update_snapshots = false →
      lookupFile h.files (get_snapshot_path h name) = none →
      (assert_match h v name u).1 = .ok ∧
      (assert_match h v name u).2.files =
        writeFile h.files (get_snapshot_path h name) (serialize v)) := by
  refine ⟨⟨?_, ?_⟩, ?_, ?_⟩
  · intro hsk
    by_contra hu
    have hu2 : u.getD h.update_snapshots = false := by
      cases hb : u.getD h.update_snapshots
      · rfl
      · exact absurd hb hu
    cases hl : lookupFile h.files (get_snapshot_path h name) with
    | none =>
      rw [assert_match_first_write hu2 hl] at hsk
      exact absurd hsk (by simp)
    | some stored =>
      rw [assert_match_compare hu2 hl] at hsk
      split at hsk
      · split at hsk <;> exact absurd hsk (by simp)
      · exact absurd hsk (by simp)
  · intro hu
    rw [assert_match_update_true hu]
  · intro hu
    rw [assert_match_update_true hu]
  · intro hu hl
    rw [assert_match_first_write hu hl]
    exact ⟨rfl, rfl⟩

/-- Witness for C6 at a concrete helper: an update-mode call skips and a
first-encounter call returns normally. -/
theorem C6_snapshot_skip_iff_witness :
    ((assert_match { node_name := "test_demo", update_snapshots := false, files := [] }
        (.obj [("a", .num 1)]) "x" (some true)).1 = .skipped (updatedMsg "x")) ∧
    ((assert_match { node_name := "test_demo", update_snapshots := false, files := [] }
        (.obj [("a", .num 1)]) "x" none).1 = .ok) := by
  have h1 := C6_snapshot_skip_iff
    { node_name := "test_demo", update_snapshots := false, files := [] }
    (.obj [("a", .num 1)]) "x" (some true)
  have h2 := C6_snapshot_skip_iff
    { node_name := "test_demo", update_snapshots := false, files := [] }
    (.obj [("a", .num 1)]) "x" none
  exact ⟨h1.1.mpr rfl, (h2.2.2 rfl rfl).1⟩

/-- C10: `get_snapshot`, `delete_snapshot` and `list_snapshots` operate only
on `.json` records: a text snapshot stored by `assert_match_text` under the
same name never changes what `get_snapshot` returns, is never removed by
`delete_snapshot` (which touches only the `.json` path), and is never
enumerated by `list_snapshots`. -/
theorem C10_text_snapshot_frame (h : SnapshotHelper) (text name : String) (u : Option Bool) :
    (∀ n2, get_snapshot (assert_match_text h text name u).2 n2 = get_snapshot h n2) ∧
    (∀ n2 q, q.ext = FileExt.txt →
      lookupFile (delete_snapshot (assert_match_text h text name u).2 n2).files q =
        lookupFile (assert_match_text h text name u).2.files q) ∧
    list_snapshots (assert_match_text h text name u).2 = list_snapshots h := by
  obtain ⟨hnode, hfiles⟩ := assert_match_text_cases h text name u
  have htest : test_name (assert_match_text h text name u).2 = test_name h := by
    rw [test_name, test_name, hnode]
  have hpath : ∀ n2, get_snapshot_path (assert_match_text h text name u).2 n2 =
      get_snapshot_path h n2 := by
    intro n2
    rw [get_snapshot_path, get_snapshot_path, htest]
  have hne : ∀ n2, get_snapshot_path h n2 ≠
      { get_snapshot_path h name with ext := FileExt.txt } := by
    intro n2 he
    have hext := congrArg SnapPath.ext he
    exact FileExt.noConfusion hext
  refine ⟨?_, ?_, ?_⟩
  · intro n2
    rw [get_snapshot, get_snapshot, hpath n2]
    rcases hfiles with hf | hf
    · rw [hf]
    · rw [hf, lookupFile_writeFile_ne (hne n2)]
  · intro n2 q hq
    have hqne : q ≠ get_snapshot_path (assert_match_text h text name u).2 n2 := by
      intro he
      rw [he, hpath n2] at hq
      exact FileExt.noConfusion hq
    rw [delete_snapshot]
    split
    · exact lookupFile_removeFile_ne hqne _
    · rfl
  · simp only [list_snapshots, htest]
    rcases hfiles with hf | hf
    · rw [hf]
    · rw [hf, filter_writeFile_of_excluded (fun content => rfl)]

/-- Witness for C10 at a concrete helper and names. -/
theorem C10_text_snapshot_frame_witness :
    get_snapshot
      (assert_match_text { node_name := "test_demo", update_snapshots := false, files := [] }
        "hello" "t" none).2 "t" = .ok none ∧
    lookupFile (delete_snapshot
        (assert_match_text { node_name := "test_demo", update_snapshots := false, files := [] }
          "hello" "t" none).2 "t").files
      { stem := "test_demo__t", ext := FileExt.txt } =
      lookupFile
        (assert_match_text { node_name := "test_demo", update_snapshots := false, files := [] }
          "hello" "t" none).2.files
        { stem := "test_demo__t", ext := FileExt.txt } ∧
    list_snapshots
      (assert_match_text { node_name := "test_demo", update_snapshots := false, files := [] }
        "hello" "t" none).2 =
      list_snapshots { node_name := "test_demo", update_snapshots := false, files := [] } := by
  have happ := C10_text_snapshot_frame
    { node_name := "test_demo", update_snapshots := false, files := [] } "hello" "t" none
  refine ⟨?_, happ.2.1 "t" { stem := "test_demo__t", ext := FileExt.txt } rfl, happ.2.2⟩
  rw [happ.1 "t"]
  rfl

/-! ### Claim theorems: client and server lifecycle -/

/-- C1: when any step of `connect` raises — transport spawn, session entry or
the handshake — every resource acquired so far is released in reverse
acquisition order, all connection-state fields are reset to `None`, and the
caller observes exactly one `ConnectionError` whose cause is the original
exception. -/
theorem C1_connect_failure_cleanup (env : Client.ConnectEnv) (st : Client.ClientState)
    (step : Client.ConnectStep) (hdisc : st.session = false)
    (hfail : failStep env = some step) :
    (Client.connect env st).result = .error (.connectionError step) ∧
    (Client.connect env st).state = Client.disconnectedState ∧
    (Client.connect env st).released = (acquiredBeforeFail env).reverse := by
  obtain ⟨s, e, i⟩ := env
  rw [failStep] at hfail
  cases s <;> cases e <;> cases i <;>
    simp_all [Client.connect, Client.connectCleanup, Client.aclose, acquiredBeforeFail]

/-- Witness for C1: the handshake (`initialize`) fails; both acquired
resources are released, session context first, transport last. -/
theorem C1_connect_failure_cleanup_witness :
    (Client.connect { spawn_ok := true, session_enter_ok := true, handshake_ok := false }
      Client.disconnectedState).result = .error (.connectionError .handshake) ∧
    (Client.connect { spawn_ok := true, session_enter_ok := true, handshake_ok := false }
      Client.disconnectedState).state = Client.disconnectedState ∧
    (Client.connect { spawn_ok := true, session_enter_ok := true, handshake_ok := false }
      Client.disconnectedState).released =
      (acquiredBeforeFail
        { spawn_ok := true, session_enter_ok := true, handshake_ok := false }).reverse :=
  C1_connect_failure_cleanup
    { spawn_ok := true, session_enter_ok := true, handshake_ok := false }
    Client.disconnectedState .handshake rfl rfl

/-- C2 (code evaluation): `wait_for_ready` resolves its timeout argument but
never reads it again — its outcome is identical for every timeout, a probe
that takes 100 time units with a 1-unit timeout still succeeds after the full
100 units instead of raising a timeout failure, and a probe failure is turned
into a `TimeoutError` carrying the cause. -/
theorem C2_wait_for_ready_ignores_timeout :
    (∀ probe st t1 t2,
      Server.wait_for_ready probe st t1 = Server.wait_for_ready probe st t2) ∧
    (Server.wait_for_ready { list_tools_result := .ok (), duration := 100 }
        { client := some connectedClientState, timeout := 30 } (some 1) =
      { result := .ok (), elapsed := 100 }) ∧
    (∀ msg dur t tmo,
      Server.wait_for_ready { list_tools_result := .error msg, duration := dur }
        { client := some connectedClientState, timeout := tmo } t =
      { result := .error (.timeoutError ("Server did not become ready: " ++ msg))
        elapsed := dur }) :=
  ⟨fun _ _ _ _ => rfl, rfl, fun _ _ _ _ => rfl⟩

/-- C3 counterexample: with a connected client whose underlying disconnect
raises, `stop` returns normally — the failure does not propagate to the
caller of `stop()`; it is logged and swallowed. -/
theorem C3_stop_counterexample :
    (Server.stop (some "boom")
      { client := some connectedClientState, timeout := 30 }).result = .ok () ∧
    (Server.stop (some "boom")
      { client := some connectedClientState, timeout := 30 }).logged_warning = true :=
  ⟨rfl, rfl⟩

/-- C3 (amended): teardown failures are logged and swallowed both by the
factory's bulk stop and by `MCPTestServer.stop` itself: `stop` always returns
normally, always clears the client, and logs a warning exactly when a client
was present and its disconnect raised; `stop_all` returns normally with the
tracked list cleared. -/
theorem C3_stop_swallows (exc : Option String) (st : Server.ServerState)
    (excs : List (Option String)) (f : Server.FactoryState) :
    (Server.stop exc st).result = .ok () ∧
    (Server.stop exc st).state.client = none ∧
    (Server.stop exc st).logged_warning = (st.client.isSome && exc.isSome) ∧
    (∃ flags, Server.stop_all excs f = .ok ({ servers := [] }, flags)) := by
  refine ⟨?_, ?_, ?_, ⟨Server.stopEach f.servers excs, rfl⟩⟩ <;>
    cases hc : st.client <;> cases exc <;> simp [Server.stop, hc]

/-- Witness for C3's amended statement at a concrete server and factory. -/
theorem C3_stop_swallows_witness :
    (Server.stop (some "io error")
      { client := some connectedClientState, timeout := 30 }).result = .ok () ∧
    (Server.stop (some "io error")
      { client := some connectedClientState, timeout := 30 }).state.client = none ∧
    (Server.stop (some "io error")
      { client := some connectedClientState, timeout := 30 }).logged_warning =
      ((some connectedClientState).isSome && (some "io error").isSome) ∧
    (∃ flags, Server.stop_all [some "io error"]
      { servers := [{ client := some connectedClientState, timeout := 30 }] } =
      .ok ({ servers := [] }, flags)) :=
  C3_stop_swallows (some "io error") { client := some connectedClientState, timeout := 30 }
    [some "io error"] { servers := [{ client := some connectedClientState, timeout := 30 }] }

/-- C8: `get_client` returns a client exactly when the managed session exists
and is connected; it fails with the "not started" `RuntimeError` on a
never-started manager, returns the connected client after a successful
`start`, and fails again after `stop`. -/
theorem C8_get_client_iff :
    (∀ tmo, Server.get_client { client := none, timeout := tmo } =
      .error Server.notStartedMsg) ∧
    (∀ st c, Server.get_client st = .ok c ↔
      st.client = some c ∧ Client.is_connected c = true) ∧
    (∀ env st, (Server.start env st).1 = .ok () →
      Server.get_client (Server.start env st).2 = .ok connectedClientState) ∧
    (∀ exc st, Server.get_client (Server.stop exc st).state =
      .error Server.notStartedMsg) ∧
    containsStr Server.notStartedMsg "not started" = true := by
  refine ⟨fun tmo => rfl, ?_, ?_, ?_, by decide⟩
  · intro st c
    cases hc : st.client with
    | none =>
      simp only [Server.get_client, hc]
      constructor
      · intro h
        exact absurd h (by simp)
      · rintro ⟨h, -⟩
        exact absurd h (by simp)
    | some c2 =>
      simp only [Server.get_client, hc]
      cases hcon : Client.is_connected c2
      · simp only [Bool.false_eq_true, if_false]
        constructor
        · intro h
          exact absurd h (by simp)
        · rintro ⟨h, hcc⟩
          rw [Option.some.inj h] at hcon
          rw [hcon] at hcc
          exact absurd hcc (by simp)
      · simp only [if_true]
        constructor
        · intro h
          have := Except.ok.inj h
          subst this
          exact ⟨rfl, hcon⟩
        · rintro ⟨h, -⟩
          rw [Option.some.inj h]
  · intro env st
    obtain ⟨s, e, i⟩ := env
    cases s <;> cases e <;> cases i <;> intro h <;>
      first
        | rfl
        | simp [Server.start, Client.connect, Client.connectCleanup,
            Client.disconnectedState, Client.aclose, Server.stop] at h
  · intro exc st
    cases hc : st.client <;> cases exc <;> simp [Server.stop, hc, Server.get_client]

/-- Witness for C8: a fresh manager fails, a started one returns the client,
a stopped one fails again. -/
theorem C8_get_client_iff_witness :
    Server.get_client
      (Server.start { spawn_ok := true, session_enter_ok := true, handshake_ok := true }
        { client := none, timeout := 30 }).2 = .ok connectedClientState ∧
    Server.get_client { client := none, timeout := 30 } = .error Server.notStartedMsg ∧
    Server.get_client (Server.stop none
      { client := some connectedClientState, timeout := 30 }).state =
      .error Server.notStartedMsg := by
  refine ⟨C8_get_client_iff.2.2.1
    { spawn_ok := true, session_enter_ok := true, handshake_ok := true }
    { client := none, timeout := 30 } rfl, C8_get_client_iff.1 30, ?_⟩
  exact C8_get_client_iff.2.2.2.1 none { client := some connectedClientState, timeout := 30 }

/-! ### Claim theorems: assertion helpers -/

/-- C7: `assert_tool_returns_error` raises an assertion failure when the tool
call unexpectedly succeeds; raises a different assertion failure when the
tool fails with a message not containing a required (truthy) substring; and
otherwise returns the caught exception — in particular a failure whose
message contains `User not found: 999` satisfies the required substring
`User not found` but not `Timeout`. -/
theorem C7_assert_tool_returns_error_spec :
    (∀ name em, Assertions.assert_tool_returns_error (.ok ()) name em =
      .error (.assertionError (Assertions.succeededMsg name))) ∧
    (∀ name em m, Assertions.pyTruthy (some em) = true → containsStr m em = false →
      Assertions.assert_tool_returns_error (.error (.otherError m)) name (some em) =
        .error (.assertionError (Assertions.wrongMsgMsg name em m))) ∧
    (∀ name em m, containsStr m em = true →
      Assertions.assert_tool_returns_error (.error (.otherError m)) name (some em) =
        .ok (.otherError m)) ∧
    (∀ name m, Assertions.assert_tool_returns_error (.error (.otherError m)) name none =
      .ok (.otherError m)) ∧
    (Assertions.assert_tool_returns_error (.error (.otherError userNotFoundMsg)) "get_user"
      (some "User not found") = .ok (.otherError userNotFoundMsg)) ∧
    (Assertions.assert_tool_returns_error (.error (.otherError userNotFoundMsg)) "get_user"
        (some "Timeout") =
      .error (.assertionError
        (Assertions.wrongMsgMsg "get_user" "Timeout" userNotFoundMsg))) ∧
    Assertions.wrongMsgMsg "get_user" "Timeout" userNotFoundMsg ≠
      Assertions.succeededMsg "get_user" := by
  refine ⟨fun name em => rfl, ?_, ?_, fun name m => rfl, rfl, rfl, by decide⟩
  · intro name em m ht hc
    simp [Assertions.assert_tool_returns_error, ht, hc]
  · intro name em m hc
    simp [Assertions.assert_tool_returns_error, hc]

/-- Witness for C7 at concrete messages. -/
theorem C7_assert_tool_returns_error_witness :
    Assertions.assert_tool_returns_error (.error (.otherError "boom")) "t" (some "bo") =
      .ok (.otherError "boom") ∧
    Assertions.assert_tool_returns_error (.error (.otherError "boom")) "t" (some "zz") =
      .error (.assertionError (Assertions.wrongMsgMsg "t" "zz" "boom")) :=
  ⟨C7_assert_tool_returns_error_spec.2.2.1 "t" "bo" "boom" (by decide),
    C7_assert_tool_returns_error_spec.2.1 "t" "zz" "boom" (by decide) (by decide)⟩

/-- C9: a tool failure that is an `AssertionError` is re-raised unchanged by
`assert_tool_returns_error`: no substring check is applied to it whatever the
`error_message` argument, it is never returned as the caught failure, and the
helper ends — as on the tool-unexpectedly-succeeded path — with a raised
`AssertionError`. -/
theorem C9_reraise_assertion_error :
    (∀ name em m,
      Assertions.assert_tool_returns_error (.error (.assertionError m)) name em =
        .error (.assertionError m)) ∧
    (∀ name em m e,
      Assertions.assert_tool_returns_error (.error (.assertionError m)) name em ≠ .ok e) ∧
    (∀ name em m, raisedAssertionClass
        (Assertions.assert_tool_returns_error (.error (.assertionError m)) name em) =
      raisedAssertionClass (Assertions.assert_tool_returns_error (.ok ()) name em)) := by
  refine ⟨fun _ _ _ => rfl, ?_, fun _ _ _ => rfl⟩
  intro name em m e h
  simp [Assertions.assert_tool_returns_error] at h

/-- Witness for C9: a tool-raised `AssertionError` with a message that does
not contain the required substring is still re-raised unchanged. -/
theorem C9_reraise_assertion_error_witness :
    Assertions.assert_tool_returns_error (.error (.assertionError "inner check failed")) "t"
      (some "Timeout") = .error (.assertionError "inner check failed") :=
  C9_reraise_assertion_error.1 "t" (some "Timeout") "inner check failed"
